import Mathlib

/-!
Verification of the deal-research contact-discovery pipeline

Shallow embedding of `src/deal_research.py` (the two-bucket LinkedIn contact
search, URL validation/repair, champion resolution/deduplication and the
LinkedIn-line stripping helpers), together with proofs settling the frozen
claims about it.

Modelling conventions:
* A Python string is embedded as its list of characters (`Str := List Char`);
  a multi-line text is embedded as the list of its lines (the result of
  Python's `text.split('\n')`), each line being a `Str` that contains no
  newline character.
* Python dictionaries (`{url: profile}`) are embedded as association lists
  `List (Str × α)` with Python's assignment semantics (`dictInsert`): an
  existing key keeps its position and gets the new value, a new key is
  appended.  Python's insertion order is exactly the list order.
* Network effects (the Tavily search client, the Gemini grounded client, the
  Google repair search and the liveness `GET` probe) are oracles supplied in
  an environment record; an `Option`-valued oracle returning `none` models a
  raised exception / connection error at that call.
* Python's `str.strip` family is embedded character-exactly for the ASCII
  whitespace characters (`pyStrip`, `pyStripLeft`, `pyStripRight`).
-/

set_option maxRecDepth 8000

/-- Embedded Python string: the list of its characters. -/
abbrev Str := List Char

/-- The ASCII whitespace characters recognised by Python's `str.strip()` and
by `\s` in the regexes of the source (restricted to ASCII). -/
def isPySpace (c : Char) : Bool :=
  c = ' ' || c = '\t' || c = '\n' || c = '\r' || c = '\x0b' || c = '\x0c'

/-- Python `s.lstrip()`. -/
def pyStripLeft (l : Str) : Str := l.dropWhile isPySpace

/-- Python `s.rstrip()`, written recursively so that induction is direct. -/
def pyStripRight : Str → Str
  | [] => []
  | c :: cs =>
      if pyStripRight cs = [] then (if isPySpace c then [] else [c])
      else c :: pyStripRight cs

/-- Python `s.strip()`. -/
def pyStrip (l : Str) : Str := pyStripRight (pyStripLeft l)

/-- Python `s.lower()` (ASCII case folding). -/
def pyLower (l : Str) : Str := l.map Char.toLower

theorem pyStripLeft_idem (l : Str) : pyStripLeft (pyStripLeft l) = pyStripLeft l := by
  unfold pyStripLeft
  induction l with
  | nil => rfl
  | cons c cs ih =>
      by_cases h : isPySpace c
      · simp [List.dropWhile_cons, h, ih]
      · simp [List.dropWhile_cons, h]

theorem pyStripRight_eq_nil_iff (l : Str) :
    pyStripRight l = [] ↔ ∀ c ∈ l, isPySpace c := by
  induction l with
  | nil => simp [pyStripRight]
  | cons c cs ih =>
      by_cases hr : pyStripRight cs = []
      · by_cases hc : isPySpace c
        · simp only [pyStripRight, if_pos hr, if_pos hc]
          constructor
          · intro _ x hx
            rcases List.mem_cons.mp hx with rfl | hx
            · exact hc
            · exact ih.mp hr x hx
          · intro _; trivial
        · simp only [pyStripRight, if_pos hr, if_neg hc]
          constructor
          · intro h; exact absurd h (by simp)
          · intro h; exact absurd (h c (List.mem_cons_self c cs)) hc
      · simp only [pyStripRight, if_neg hr]
        constructor
        · intro h; exact absurd h (by simp)
        · intro h
          exact absurd (ih.mpr fun x hx => h x (List.mem_cons_of_mem c hx)) hr

theorem pyStripLeft_eq_nil_iff (l : Str) :
    pyStripLeft l = [] ↔ ∀ c ∈ l, isPySpace c := by
  unfold pyStripLeft
  induction l with
  | nil => simp
  | cons c cs ih =>
      by_cases h : isPySpace c
      · simp [List.dropWhile_cons, h, ih]
      · simp [List.dropWhile_cons, h]

theorem pyStripRight_cons_of_ne (c : Char) (cs : Str) (hr : pyStripRight cs ≠ []) :
    pyStripRight (c :: cs) = c :: pyStripRight cs := by
  simp only [pyStripRight, if_neg hr]

theorem pyStripRight_idem (l : Str) : pyStripRight (pyStripRight l) = pyStripRight l := by
  induction l with
  | nil => rfl
  | cons c cs ih =>
      by_cases hr : pyStripRight cs = []
      · by_cases hc : isPySpace c
        · simp [pyStripRight, hr, hc]
        · simp [pyStripRight, hr, hc]
      · rw [pyStripRight_cons_of_ne c cs hr]
        rw [pyStripRight_cons_of_ne c _ (by rw [ih]; exact hr), ih]

theorem pyStrip_left_right_comm (l : Str) :
    pyStripLeft (pyStripRight l) = pyStripRight (pyStripLeft l) := by
  induction l with
  | nil => rfl
  | cons c cs ih =>
      by_cases hc : isPySpace c
      · have hleft : pyStripLeft (c :: cs) = pyStripLeft cs := by
          simp [pyStripLeft, List.dropWhile_cons, hc]
        by_cases hr : pyStripRight cs = []
        · have h1 : pyStripRight (c :: cs) = [] := by
            simp [pyStripRight, hr, hc]
          have h2 : pyStripLeft cs = [] :=
            (pyStripLeft_eq_nil_iff cs).mpr ((pyStripRight_eq_nil_iff cs).mp hr)
          rw [h1, hleft, h2]
          rfl
        · rw [pyStripRight_cons_of_ne c cs hr, hleft, ← ih]
          simp [pyStripLeft, List.dropWhile_cons, hc]
      · have hleft : pyStripLeft (c :: cs) = c :: cs := by
          simp [pyStripLeft, List.dropWhile_cons, hc]
        rw [hleft]
        by_cases hr : pyStripRight cs = []
        · by_cases hx : isPySpace c
          · exact absurd hx hc
          · have h1 : pyStripRight (c :: cs) = [c] := by
              simp [pyStripRight, hr, hx]
            rw [h1]
            simp [pyStripLeft, List.dropWhile_cons, hc]
        · rw [pyStripRight_cons_of_ne c cs hr]
          simp [pyStripLeft, List.dropWhile_cons, hc]

theorem pyStrip_pyStripLeft (l : Str) : pyStrip (pyStripLeft l) = pyStrip l := by
  unfold pyStrip
  rw [pyStripLeft_idem]

theorem pyStrip_pyStripRight (l : Str) : pyStrip (pyStripRight l) = pyStrip l := by
  unfold pyStrip
  rw [← pyStrip_left_right_comm, pyStripRight_idem, pyStrip_left_right_comm]

theorem pyStrip_idem (l : Str) : pyStrip (pyStrip l) = pyStrip l := by
  unfold pyStrip
  rw [← pyStrip_left_right_comm l, pyStripLeft_idem, pyStrip_left_right_comm,
    pyStripRight_idem]

/-! ## Python dictionaries as association lists -/

/-- Lookup in an embedded Python dict (first entry with the key). -/
def lookupD {α : Type} : List (Str × α) → Str → Option α
  | [], _ => none
  | e :: es, k => if e.1 = k then some e.2 else lookupD es k

/-- Python dict assignment `d[k] = v`: overwrite in place if the key exists,
append otherwise. -/
def dictInsert {α : Type} (d : List (Str × α)) (k : Str) (v : α) : List (Str × α) :=
  if (lookupD d k).isSome then
    d.map (fun e => if e.1 = k then (k, v) else e)
  else
    d ++ [(k, v)]

theorem lookupD_map_replace_self {α : Type} (d : List (Str × α)) (k : Str) (v : α)
    (h : (lookupD d k).isSome) :
    lookupD (d.map (fun e => if e.1 = k then (k, v) else e)) k = some v := by
  induction d with
  | nil => simp [lookupD] at h
  | cons e es ih =>
      by_cases he : e.1 = k
      · simp [lookupD, he]
      · simp only [lookupD, he, if_neg he] at h
        simp [lookupD, he, ih h]

theorem lookupD_map_replace_other {α : Type} (d : List (Str × α)) (k k' : Str) (v : α)
    (h : k' ≠ k) :
    lookupD (d.map (fun e => if e.1 = k then (k, v) else e)) k' = lookupD d k' := by
  induction d with
  | nil => rfl
  | cons e es ih =>
      by_cases he : e.1 = k
      · have : k ≠ k' := fun hk => h hk.symm
        simp [lookupD, he, this, ih]
      · by_cases he' : e.1 = k'
        · simp [lookupD, he, he', h]
        · simp [lookupD, he, he', ih]

theorem lookupD_append_some {α : Type} (d : List (Str × α)) (k k' : Str) (v w : α)
    (h : lookupD d k' = some w) : lookupD (d ++ [(k, v)]) k' = some w := by
  induction d with
  | nil => simp [lookupD] at h
  | cons e es ih =>
      by_cases he : e.1 = k'
      · simp only [lookupD, if_pos he] at h
        simp [lookupD, he, h]
      · simp only [lookupD, if_neg he] at h
        simp [lookupD, he, ih h]

theorem lookupD_append_none {α : Type} (d : List (Str × α)) (k k' : Str) (v : α)
    (h : lookupD d k' = none) :
    lookupD (d ++ [(k, v)]) k' = if k = k' then some v else none := by
  induction d with
  | nil => simp [lookupD]
  | cons e es ih =>
      by_cases he : e.1 = k'
      · simp [lookupD, he] at h
      · simp only [lookupD, if_neg he] at h
        simp [lookupD, he, ih h]

/-- The master lemma for dict assignment. -/
theorem lookupD_dictInsert {α : Type} (d : List (Str × α)) (k k' : Str) (v : α) :
    lookupD (dictInsert d k v) k' = if k' = k then some v else lookupD d k' := by
  unfold dictInsert
  by_cases hp : (lookupD d k).isSome
  · rw [if_pos hp]
    by_cases hk : k' = k
    · subst hk; rw [if_pos rfl, lookupD_map_replace_self d k' v hp]
    · rw [if_neg hk, lookupD_map_replace_other d k k' v hk]
  · rw [if_neg hp]
    have hnone : lookupD d k = none := by
      cases h : lookupD d k with
      | none => rfl
      | some w => rw [h] at hp; simp at hp
    by_cases hk : k' = k
    · subst hk
      rw [lookupD_append_none d k' k' v hnone]
      simp [hnone]
    · cases h : lookupD d k' with
      | none =>
          rw [lookupD_append_none d k k' v h,
            if_neg (show ¬ k = k' from fun hh => hk hh.symm), if_neg hk]

      | some w =>
          rw [lookupD_append_some d k k' v w h]
          simp [hk]

theorem mem_dictInsert {α : Type} {d : List (Str × α)} {k : Str} {v : α} {e : Str × α}
    (h : e ∈ dictInsert d k v) : e ∈ d ∨ e = (k, v) := by
  unfold dictInsert at h
  by_cases hp : (lookupD d k).isSome
  · rw [if_pos hp] at h
    rcases List.mem_map.mp h with ⟨e', he', heq⟩
    by_cases hk : e'.1 = k
    · right; rw [← heq, if_pos hk]
    · left; rw [← heq, if_neg hk]; exact he'
  · rw [if_neg hp] at h
    rcases List.mem_append.mp h with h' | h'
    · left; exact h'
    · right; exact List.mem_singleton.mp h'

theorem lookupD_eq_none_iff {α : Type} (d : List (Str × α)) (k : Str) :
    lookupD d k = none ↔ k ∉ d.map (·.1) := by
  induction d with
  | nil => simp [lookupD]
  | cons e es ih =>
      by_cases he : e.1 = k
      · simp only [lookupD, if_pos he]
        constructor
        · intro h; exact absurd h (by simp)
        · intro h
          exact absurd (by rw [List.map_cons, he]; exact List.mem_cons_self _ _) h
      · simp only [lookupD, if_neg he, List.map_cons, List.mem_cons, ih]
        constructor
        · intro h hk
          rcases hk with hk | hk
          · exact he hk.symm
          · exact h hk
        · intro h hk
          exact h (Or.inr hk)

theorem lookupD_mem {α : Type} {d : List (Str × α)} {k : Str} {v : α}
    (h : lookupD d k = some v) : (k, v) ∈ d := by
  induction d with
  | nil => simp [lookupD] at h
  | cons e es ih =>
      by_cases he : e.1 = k
      · simp only [lookupD, if_pos he] at h
        obtain ⟨k₀, v₀⟩ := e
        have hv : v₀ = v := by simpa using h
        have hk : k₀ = k := he
        subst hv; subst hk
        exact List.mem_cons_self _ _
      · simp only [lookupD, if_neg he] at h
        exact List.mem_cons_of_mem _ (ih h)

theorem keys_dictInsert_sub {α : Type} {d : List (Str × α)} {k : Str} {v : α} :
    ∀ x ∈ (dictInsert d k v).map (·.1), x ∈ d.map (·.1) ∨ x = k := by
  intro x hx
  rcases List.mem_map.mp hx with ⟨e, he, hxe⟩
  rcases mem_dictInsert he with h' | h'
  · left; exact hxe ▸ List.mem_map_of_mem _ h'
  · right; rw [← hxe, h']

theorem dictInsert_of_not_mem {α : Type} {d : List (Str × α)} {k : Str} (v : α)
    (h : k ∉ d.map (·.1)) : dictInsert d k v = d ++ [(k, v)] := by
  unfold dictInsert
  rw [if_neg]
  rw [Option.isSome_iff_ne_none]
  simp [(lookupD_eq_none_iff d k).mpr h]

theorem keys_nodup_dictInsert {α : Type} {d : List (Str × α)} {k : Str} {v : α}
    (h : (d.map (·.1)).Nodup) : ((dictInsert d k v).map (·.1)).Nodup := by
  unfold dictInsert
  by_cases hp : (lookupD d k).isSome
  · rw [if_pos hp]
    have : (d.map (fun e => if e.1 = k then (k, v) else e)).map (·.1) = d.map (·.1) := by
      rw [List.map_map]
      apply List.map_congr_left
      intro e _
      by_cases he : e.1 = k <;> simp [he]
    rw [this]; exact h
  · rw [if_neg hp]
    have hk : k ∉ d.map (·.1) := by
      rw [← lookupD_eq_none_iff]
      cases hl : lookupD d k with
      | none => rfl
      | some w => rw [hl] at hp; simp at hp
    simp only [List.map_append, List.map_cons, List.map_nil]
    rw [List.nodup_append]
    refine ⟨h, List.nodup_singleton k, ?_⟩
    intro a ha hb
    simp at hb
    subst hb
    exact hk ha

/-! ## Contact blocks and champion deduplication

`deduplicate_champion_from_contacts` (src/deal_research.py:429-468) splits the
contacts text into blocks at blank lines (`re.split(r'\n\s*\n', ...)`), strips
each block, and drops a block when it contains the champion URL or when its
first line matches the champion name case-insensitively in either direction.
-/

/-- Python's substring test `pat in hay`. -/
def hasSubstr (pat : Str) : Str → Bool
  | [] => pat == []
  | c :: rest => pat.isPrefixOf (c :: rest) || hasSubstr pat rest

/-- A line consisting only of whitespace; such lines are the block separators
matched by `\n\s*\n`. -/
def isBlankLine (l : Str) : Bool := pyStrip l == []

/-- Split a list of lines into groups at blank lines (accumulator holds the
current group in reverse). -/
def splitBlocksAux : List Str → List Str → List (List Str)
  | [], acc => [acc.reverse]
  | l :: ls, acc =>
      if isBlankLine l then acc.reverse :: splitBlocksAux ls []
      else splitBlocksAux ls (l :: acc)

/-- The blocks of a text, as produced by `re.split(r'\n\s*\n', contacts_text)`
(empty groups stand for the empty strings Python's split never emits because
the `\s*` is greedy; they are skipped by every consumer). -/
def splitBlocks (ls : List Str) : List (List Str) := splitBlocksAux ls []

/-- Strip trailing whitespace from the last line of a group. -/
def stripLastRight : List Str → List Str
  | [] => []
  | [y] => [pyStripRight y]
  | y :: ys => y :: stripLastRight ys

/-- Python `block.strip()` on a multi-line block, at line level: leading whitespace
of the first line and trailing whitespace of the last line are removed
(block groups contain no whitespace-only lines, so `.strip()` cannot consume
a newline). -/
def blockStrip : List Str → List Str
  | [] => []
  | [x] => [pyStrip x]
  | x :: xs => pyStripLeft x :: stripLastRight xs

/-- Rejoin the lines of a block with newlines, giving the Python block string
used for the substring tests. -/
def joinNL : List Str → Str
  | [] => []
  | [x] => x
  | x :: xs => x ++ '\n' :: joinNL xs

/-- The join `'\n\n'.join(blocks)` at line level (the join of no blocks is the empty
text, i.e. the single empty line). -/
def linesJoinBlocks : List (List Str) → List Str
  | [] => [[]]
  | [b] => b
  | b :: bs => b ++ ([] : Str) :: linesJoinBlocks bs

/-- The test `if champion_url and champion_url in block_stripped` — note Python's
truthiness: a `None` or empty URL skips the check. -/
def championUrlHit (championUrl : Option Str) (blockS : Str) : Bool :=
  match championUrl with
  | some u => !(u == []) && hasSubstr u blockS
  | none => false

/-- The first line of the stripped block, stripped and lowered
(`block_stripped.split('\n')[0].strip().lower()`). -/
def blockFirstLineLower (bS : List Str) : Str := pyLower (pyStrip (bS.headD []))

/-- The filtering loop of `deduplicate_champion_from_contacts`. -/
def dedupLoop (championUrl : Option Str) (championLower : Str) :
    List (List Str) → List (List Str)
  | [] => []
  | b :: bs =>
      if joinNL (blockStrip b) == [] then dedupLoop championUrl championLower bs
      else if championUrlHit championUrl (joinNL (blockStrip b)) then
        dedupLoop championUrl championLower bs
      else if hasSubstr championLower (blockFirstLineLower (blockStrip b)) ||
          hasSubstr (blockFirstLineLower (blockStrip b)) championLower then
        dedupLoop championUrl championLower bs
      else blockStrip b :: dedupLoop championUrl championLower bs

/-- The function `deduplicate_champion_from_contacts(contacts_text, champion_url,
champion_name)` (src/deal_research.py:429-468), at line level.  `none` for
`champion_url` is Python's `None`. -/
def deduplicate_champion_from_contacts (contacts : List Str)
    (championUrl : Option Str) (championName : Str) : List Str :=
  linesJoinBlocks (dedupLoop championUrl (pyLower championName) (splitBlocks contacts))

/-- The removal criterion exactly as the claim words it: the block contains
the champion URL as a verbatim substring, or the block's first line and the
champion name match case-insensitively as a substring in either direction. -/
def championBlockMatch (championUrl : Option Str) (championName : Str)
    (bS : List Str) : Bool :=
  (match championUrl with
   | some u => hasSubstr u (joinNL bS)
   | none => false)
  || (hasSubstr (pyLower championName) (blockFirstLineLower bS) ||
      hasSubstr (blockFirstLineLower bS) (pyLower championName))

theorem dedupLoop_eq_filter (u : Option Str) (n : Str) (hu : u ≠ some [])
    (bs : List (List Str)) :
    dedupLoop u (pyLower n) bs =
      (bs.map blockStrip).filter
        (fun bS => !(joinNL bS == []) && !(championBlockMatch u n bS)) := by
  induction bs with
  | nil => rfl
  | cons b bs ih =>
      simp only [dedupLoop, List.map_cons, List.filter_cons]
      by_cases h1 : (joinNL (blockStrip b) == []) = true
      · simp [h1, ih]
      · by_cases h2 : championUrlHit u (joinNL (blockStrip b)) = true
        · have hm : championBlockMatch u n (blockStrip b) = true := by
            unfold championBlockMatch
            cases u with
            | none => simp [championUrlHit] at h2
            | some uu =>
                have hs : hasSubstr uu (joinNL (blockStrip b)) = true := by
                  simp only [championUrlHit, Bool.and_eq_true] at h2
                  exact h2.2
                simp [hs]
          simp [h1, h2, hm, ih]
        · by_cases h3 : (hasSubstr (pyLower n) (blockFirstLineLower (blockStrip b)) ||
              hasSubstr (blockFirstLineLower (blockStrip b)) (pyLower n)) = true
          · have hm : championBlockMatch u n (blockStrip b) = true := by
              unfold championBlockMatch
              rw [h3]
              simp
            simp [h1, h2, h3, hm, ih]
          · have h2' : championUrlHit u (joinNL (blockStrip b)) = false :=
              Bool.eq_false_iff.mpr h2
            have h3' : (hasSubstr (pyLower n) (blockFirstLineLower (blockStrip b)) ||
                hasSubstr (blockFirstLineLower (blockStrip b)) (pyLower n)) = false :=
              Bool.eq_false_iff.mpr h3
            have hm : championBlockMatch u n (blockStrip b) = false := by
              unfold championBlockMatch
              rw [h3']
              cases u with
              | none => rfl
              | some uu =>
                  have huu : (uu == []) = false := by
                    rw [beq_eq_false_iff_ne]
                    exact fun h => hu (by rw [h])
                  have hs : hasSubstr uu (joinNL (blockStrip b)) = false := by
                    simp only [championUrlHit, huu, Bool.not_false, Bool.true_and] at h2'
                    exact h2'
                  simp [hs]
            simp [h1, h2, h3, hm, ih]

/-- Claim C6: `deduplicate_champion_from_contacts` removes a block if and
only if the block contains the champion URL as a verbatim substring, or the
block's first line and the champion name match case-insensitively as a
substring in either direction; all other blocks are kept (stripped, rejoined
by blank lines).  Stated for any actual champion URL (`none` models Python's
`None`; the degenerate empty string is excluded, matching Python's
truthiness test `if champion_url`). -/
theorem C6_champion_dedup_rule (contacts : List Str) (championUrl : Option Str)
    (championName : Str) (hu : championUrl ≠ some []) :
    deduplicate_champion_from_contacts contacts championUrl championName =
      linesJoinBlocks (((splitBlocks contacts).map blockStrip).filter
        (fun bS => !(joinNL bS == []) &&
          !(championBlockMatch championUrl championName bS))) := by
  unfold deduplicate_champion_from_contacts
  rw [dedupLoop_eq_filter championUrl championName hu]

/-- The spec's own example: the Jane Smith block with a matching champion URL. -/
def janeContacts : List Str :=
  ["Jane Smith".toList, "Title: CMO".toList,
    "LinkedIn: https://site/in/janesmith".toList]

def janeUrl : Str := "https://site/in/janesmith".toList

def janeName : Str := "Jane Smith".toList

theorem C6_champion_dedup_rule_witness :
    (deduplicate_champion_from_contacts janeContacts (some janeUrl) janeName =
      linesJoinBlocks (((splitBlocks janeContacts).map blockStrip).filter
        (fun bS => !(joinNL bS == []) &&
          !(championBlockMatch (some janeUrl) janeName bS)))) ∧
    deduplicate_champion_from_contacts janeContacts (some janeUrl) janeName = [[]] :=
  ⟨C6_champion_dedup_rule janeContacts (some janeUrl) janeName (by decide), by decide⟩

/-! ### Membership lemmas for the block decomposition -/

theorem mem_splitBlocksAux :
    ∀ (ls : List Str) (acc : List Str) (b : List Str), b ∈ splitBlocksAux ls acc →
      ∀ x ∈ b, x ∈ ls ∨ x ∈ acc := by
  intro ls
  induction ls with
  | nil =>
      intro acc b hb x hx
      simp only [splitBlocksAux, List.mem_singleton] at hb
      subst hb
      right
      exact List.mem_reverse.mp hx
  | cons l ls ih =>
      intro acc b hb x hx
      by_cases hbl : isBlankLine l = true
      · simp only [splitBlocksAux, if_pos hbl] at hb
        rcases List.mem_cons.mp hb with rfl | hb
        · right; exact List.mem_reverse.mp hx
        · rcases ih [] b hb x hx with h | h
          · left; exact List.mem_cons_of_mem l h
          · exact absurd h (List.not_mem_nil x)
      · simp only [splitBlocksAux, if_neg hbl] at hb
        rcases ih (l :: acc) b hb x hx with h | h
        · left; exact List.mem_cons_of_mem l h
        · rcases List.mem_cons.mp h with rfl | h
          · left; exact List.mem_cons_self x ls
          · right; exact h

theorem mem_splitBlocks {ls : List Str} {b : List Str} (hb : b ∈ splitBlocks ls) :
    ∀ x ∈ b, x ∈ ls := by
  intro x hx
  rcases mem_splitBlocksAux ls [] b hb x hx with h | h
  · exact h
  · exact absurd h (List.not_mem_nil x)

theorem mem_stripLastRight {ys : List Str} {x : Str} (hx : x ∈ stripLastRight ys) :
    ∃ y ∈ ys, x = y ∨ x = pyStripRight y := by
  induction ys with
  | nil => simp [stripLastRight] at hx
  | cons y ys ih =>
      cases ys with
      | nil =>
          simp only [stripLastRight, List.mem_singleton] at hx
          exact ⟨y, List.mem_cons_self y [], Or.inr hx⟩
      | cons y' ys' =>
          rcases List.mem_cons.mp hx with rfl | hx'
          · exact ⟨x, List.mem_cons_self x _, Or.inl rfl⟩
          · rcases ih hx' with ⟨z, hz, h⟩
            exact ⟨z, List.mem_cons_of_mem y hz, h⟩

theorem mem_blockStrip {b : List Str} {x : Str} (hx : x ∈ blockStrip b) :
    ∃ y ∈ b, pyStrip x = pyStrip y := by
  cases b with
  | nil => simp [blockStrip] at hx
  | cons x0 xs =>
      cases xs with
      | nil =>
          simp only [blockStrip, List.mem_singleton] at hx
          subst hx
          exact ⟨x0, List.mem_cons_self x0 [], pyStrip_idem x0⟩
      | cons x1 rest =>
          rcases List.mem_cons.mp hx with rfl | hx'
          · exact ⟨x0, List.mem_cons_self x0 _, pyStrip_pyStripLeft x0⟩
          · rcases mem_stripLastRight hx' with ⟨y, hy, h⟩
            rcases h with h | h
            · exact ⟨y, List.mem_cons_of_mem x0 hy, by rw [h]⟩
            · exact ⟨y, List.mem_cons_of_mem x0 hy, by rw [h, pyStrip_pyStripRight y]⟩

theorem mem_linesJoinBlocks {bs : List (List Str)} {x : Str}
    (hx : x ∈ linesJoinBlocks bs) : x = [] ∨ ∃ b ∈ bs, x ∈ b := by
  induction bs with
  | nil =>
      simp only [linesJoinBlocks, List.mem_singleton] at hx
      exact Or.inl hx
  | cons b bs ih =>
      cases bs with
      | nil =>
          exact Or.inr ⟨b, List.mem_cons_self b [], hx⟩
      | cons b' bs' =>
          simp only [linesJoinBlocks] at hx
          rcases List.mem_append.mp hx with h | h
          · exact Or.inr ⟨b, List.mem_cons_self b _, h⟩
          · rcases List.mem_cons.mp h with rfl | h
            · exact Or.inl rfl
            · rcases ih h with h' | ⟨c, hc, hxc⟩
              · exact Or.inl h'
              · exact Or.inr ⟨c, List.mem_cons_of_mem b hc, hxc⟩

theorem mem_dedupLoop {u : Option Str} {nl : Str} {bs : List (List Str)}
    {bS : List Str} (h : bS ∈ dedupLoop u nl bs) : ∃ b ∈ bs, bS = blockStrip b := by
  induction bs with
  | nil => simp [dedupLoop] at h
  | cons b bs ih =>
      simp only [dedupLoop] at h
      by_cases h1 : (joinNL (blockStrip b) == []) = true
      · rw [if_pos h1] at h
        rcases ih h with ⟨c, hc, hbc⟩
        exact ⟨c, List.mem_cons_of_mem b hc, hbc⟩
      · rw [if_neg h1] at h
        by_cases h2 : championUrlHit u (joinNL (blockStrip b)) = true
        · rw [if_pos h2] at h
          rcases ih h with ⟨c, hc, hbc⟩
          exact ⟨c, List.mem_cons_of_mem b hc, hbc⟩
        · rw [if_neg h2] at h
          by_cases h3 : (hasSubstr nl (blockFirstLineLower (blockStrip b)) ||
              hasSubstr (blockFirstLineLower (blockStrip b)) nl) = true
          · rw [if_pos h3] at h
            rcases ih h with ⟨c, hc, hbc⟩
            exact ⟨c, List.mem_cons_of_mem b hc, hbc⟩
          · rw [if_neg h3] at h
            rcases List.mem_cons.mp h with rfl | h'
            · exact ⟨b, List.mem_cons_self b bs, rfl⟩
            · rcases ih h' with ⟨c, hc, hbc⟩
              exact ⟨c, List.mem_cons_of_mem b hc, hbc⟩

/-- Every line of the deduplicated text is blank-separator or agrees, up to
stripping, with a line of the input text. -/
theorem dedup_line_strip {contacts : List Str} {u : Option Str} {n : Str}
    {x : Str} (hx : x ∈ deduplicate_champion_from_contacts contacts u n) :
    x = [] ∨ ∃ l ∈ contacts, pyStrip x = pyStrip l := by
  unfold deduplicate_champion_from_contacts at hx
  rcases mem_linesJoinBlocks hx with h | ⟨bS, hbS, hxbS⟩
  · exact Or.inl h
  · rcases mem_dedupLoop hbS with ⟨b, hb, rfl⟩
    rcases mem_blockStrip hxbS with ⟨y, hy, hxy⟩
    exact Or.inr ⟨y, mem_splitBlocks hb y hy, hxy⟩

/-! ## `extract_and_strip_linkedin_lines` (src/deal_research.py:911-957)

Scans for lines whose stripped form starts with `"LinkedIn:"` and contains an
`http(s)` URL (`re.search(r'https?://[^\s]+', stripped)`), records the nearest
preceding non-empty non-label line (looking back at most 3 lines) as the
contact name, removes those lines, and returns the cleaned text together with
the name→URL mapping.
-/

/-- Match of `https?://[^\s]+` anchored at the start of `l` (greedy run of
non-whitespace after the scheme, at least one character). -/
def urlAt (l : Str) : Option Str :=
  if ("https://".toList).isPrefixOf l then
    if (l.drop 8).takeWhile (fun c => !isPySpace c) = [] then none
    else some ("https://".toList ++ (l.drop 8).takeWhile (fun c => !isPySpace c))
  else if ("http://".toList).isPrefixOf l then
    if (l.drop 7).takeWhile (fun c => !isPySpace c) = [] then none
    else some ("http://".toList ++ (l.drop 7).takeWhile (fun c => !isPySpace c))
  else none

/-- Leftmost match of `https?://[^\s]+` in `l`, as found by `re.search`. -/
def findUrl : Str → Option Str
  | [] => none
  | c :: rest =>
      match urlAt (c :: rest) with
      | some u => some u
      | none => findUrl rest

/-- The label/marker line heads skipped when scanning back for a contact name. -/
def nameSkipLabels : List Str :=
  ["Title:".toList, "LinkedIn:".toList, "Tenure:".toList, "Location:".toList,
    "Insight:".toList, "CHAMPION".toList]

def isLabelLine (p : Str) : Bool := nameSkipLabels.any (fun lab => lab.isPrefixOf p)

/-- A line that `extract_and_strip_linkedin_lines` removes: its stripped form
starts with `"LinkedIn:"` and contains an http(s) URL. -/
def removableLine (l : Str) : Bool :=
  ("LinkedIn:".toList).isPrefixOf (pyStrip l) && (findUrl (pyStrip l)).isSome

/-- Look back 1-3 lines from index `i` for the nearest non-empty line that
does not start with a label (the associated contact name); Python's
`for j in range(1, 4)` with the `i - j < 0` break. -/
def lookBackName (ls : List Str) (i : Nat) : Option Str :=
  ([1, 2, 3].filter (· ≤ i)).findSome? (fun j =>
    if !(pyStrip ((ls.get? (i - j)).getD []) == []) &&
        !isLabelLine (pyStrip ((ls.get? (i - j)).getD [])) then
      some (pyStrip ((ls.get? (i - j)).getD []))
    else none)

/-- One iteration of the scanning loop: accumulate the mapping and the set of
line indices to remove. -/
def extractStep (ls : List Str) (acc : List (Str × Str) × List Nat) (i : Nat) :
    List (Str × Str) × List Nat :=
  if ("LinkedIn:".toList).isPrefixOf (pyStrip ((ls.get? i).getD [])) then
    match findUrl (pyStrip ((ls.get? i).getD [])) with
    | some url =>
        (match lookBackName ls i with
         | some nm => dictInsert acc.1 nm url
         | none => acc.1,
         acc.2 ++ [i])
    | none => acc
  else acc

/-- The whole scanning loop of `extract_and_strip_linkedin_lines`. -/
def extractScan (ls : List Str) : List (Str × Str) × List Nat :=
  (List.range ls.length).foldl (extractStep ls) ([], [])

/-- The function `extract_and_strip_linkedin_lines(contacts_text)` at line level: the
cleaned text keeps the lines whose index is not in the removal set, and the
mapping is the accumulated `{name: url}` dict. -/
def extract_and_strip_linkedin_lines (ls : List Str) :
    List Str × List (Str × Str) :=
  ((List.range ls.length).filterMap (fun i =>
      if i ∈ (extractScan ls).2 then none else ls.get? i),
   (extractScan ls).1)

/-- The declarative per-index mapping update: if the line holds a URL and a
name is found within three lines above, record it (overwriting any earlier
URL recorded for the same name). -/
def extractRecord (ls : List Str) (m : List (Str × Str)) (i : Nat) :
    List (Str × Str) :=
  match findUrl (pyStrip ((ls.get? i).getD [])), lookBackName ls i with
  | some url, some nm => dictInsert m nm url
  | _, _ => m

theorem extractScan_removes (ls : List Str) :
    ∀ (L : List Nat) (m : List (Str × Str)) (R : List Nat),
      (L.foldl (extractStep ls) (m, R)).2 =
        R ++ L.filter (fun i => removableLine ((ls.get? i).getD [])) := by
  intro L
  induction L with
  | nil => intro m R; simp
  | cons i L ih =>
      intro m R
      simp only [List.foldl_cons, List.filter_cons]
      by_cases hp : (("LinkedIn:".toList).isPrefixOf (pyStrip ((ls.get? i).getD []))) = true
      · cases hf : findUrl (pyStrip ((ls.get? i).getD [])) with
        | some url =>
            have hrem : removableLine ((ls.get? i).getD []) = true := by
              unfold removableLine
              rw [hp, hf]
              rfl
            rw [hrem]
            simp only [extractStep, if_pos hp, hf]
            rw [ih]
            simp
        | none =>
            have hrem : removableLine ((ls.get? i).getD []) = false := by
              unfold removableLine
              rw [hp, hf]
              rfl
            rw [hrem]
            simp only [extractStep, if_pos hp, hf]
            rw [ih]
            simp
      · have hrem : removableLine ((ls.get? i).getD []) = false := by
          unfold removableLine
          rw [Bool.eq_false_iff.mpr hp]
          rfl
        rw [hrem]
        simp only [extractStep, if_neg hp]
        rw [ih]
        simp

theorem extractScan_mapping (ls : List Str) :
    ∀ (L : List Nat) (m : List (Str × Str)) (R : List Nat),
      (L.foldl (extractStep ls) (m, R)).1 =
        (L.filter (fun i => removableLine ((ls.get? i).getD []))).foldl
          (extractRecord ls) m := by
  intro L
  induction L with
  | nil => intro m R; rfl
  | cons i L ih =>
      intro m R
      simp only [List.foldl_cons, List.filter_cons]
      by_cases hp : (("LinkedIn:".toList).isPrefixOf (pyStrip ((ls.get? i).getD []))) = true
      · cases hf : findUrl (pyStrip ((ls.get? i).getD [])) with
        | some url =>
            have hrem : removableLine ((ls.get? i).getD []) = true := by
              unfold removableLine
              rw [hp, hf]
              rfl
            rw [hrem]
            simp only [extractStep, if_pos hp, hf]
            rw [ih, if_pos trivial, List.foldl_cons]
            have hrec : extractRecord ls m i =
                (match lookBackName ls i with
                 | some nm => dictInsert m nm url
                 | none => m) := by
              unfold extractRecord
              rw [hf]
              cases hlb : lookBackName ls i <;> rfl
            rw [hrec]
        | none =>
            have hrem : removableLine ((ls.get? i).getD []) = false := by
              unfold removableLine
              rw [hp, hf]
              rfl
            rw [hrem]
            simp only [extractStep, if_pos hp, hf]
            exact ih m R
      · have hrem : removableLine ((ls.get? i).getD []) = false := by
          unfold removableLine
          rw [Bool.eq_false_iff.mpr hp]
          rfl
        rw [hrem]
        simp only [extractStep, if_neg hp]
        exact ih m R

theorem range_filterMap_eq_filter (p : Str → Bool) :
    ∀ ls : List Str,
      (List.range ls.length).filterMap
        (fun i => if p ((ls.get? i).getD []) then none else ls.get? i) =
      ls.filter (fun l => !(p l)) := by
  intro ls
  induction ls with
  | nil => simp
  | cons a t ih =>
      rw [List.length_cons, List.range_succ_eq_map, List.filterMap_cons,
        List.filterMap_map]
      have hc : ((fun i => if p (((a :: t).get? i).getD []) then none
            else (a :: t).get? i) ∘ Nat.succ) =
          (fun i => if p ((t.get? i).getD []) then none else t.get? i) := by
        funext i; rfl
      rw [hc, ih]
      by_cases hpa : p a = true
      · simp [hpa]
      · simp [hpa]

theorem filterMap_congr_mem {α β : Type} {l : List α} {f g : α → Option β}
    (h : ∀ a ∈ l, f a = g a) : l.filterMap f = l.filterMap g := by
  induction l with
  | nil => rfl
  | cons a t ih =>
      rw [List.filterMap_cons, List.filterMap_cons, h a (List.mem_cons_self a t),
        ih (fun b hb => h b (List.mem_cons_of_mem a hb))]

/-- The cleaned text of `extract_and_strip_linkedin_lines` keeps exactly the
lines that are not `"LinkedIn:"`-lines carrying a URL. -/
theorem extract_fst_filter (ls : List Str) :
    (extract_and_strip_linkedin_lines ls).1 =
      ls.filter (fun l => !(removableLine l)) := by
  have hset : (extractScan ls).2 =
      (List.range ls.length).filter
        (fun i => removableLine ((ls.get? i).getD [])) := by
    unfold extractScan
    rw [extractScan_removes ls (List.range ls.length) [] []]
    rfl
  show (List.range ls.length).filterMap
      (fun i => if i ∈ (extractScan ls).2 then none else ls.get? i) = _
  have hfun : ∀ i ∈ List.range ls.length,
      (if i ∈ (extractScan ls).2 then none else ls.get? i) =
      (if removableLine ((ls.get? i).getD []) then none else ls.get? i) := by
    intro i hi
    rw [hset]
    by_cases hr : removableLine ((ls.get? i).getD []) = true
    · have hyes : i ∈ (List.range ls.length).filter
          (fun j => removableLine ((ls.get? j).getD [])) :=
        List.mem_filter.mpr ⟨hi, hr⟩
      rw [if_pos hyes, if_pos hr]
    · have hni : i ∉ (List.range ls.length).filter
          (fun j => removableLine ((ls.get? j).getD [])) := by
        intro hmem
        exact hr (List.mem_filter.mp hmem).2
      rw [if_neg hni, if_neg hr]
  rw [filterMap_congr_mem hfun, range_filterMap_eq_filter removableLine ls]

/-- Claim C10: `extract_and_strip_linkedin_lines` removes exactly the lines
that (stripped) start with `"LinkedIn:"` and contain an http(s) URL — in
particular a `"LinkedIn:"` line with no URL, such as the placeholder
`"LinkedIn: Search manually"`, is left in the returned text unchanged — and
the returned mapping records, for each removed line in order, the nearest
preceding non-empty non-label line within three lines as the name for that
line's URL. -/
theorem C10_linkedin_line_stripping (ls : List Str) :
    (extract_and_strip_linkedin_lines ls).1 =
      ls.filter (fun l => !(removableLine l)) ∧
    (extract_and_strip_linkedin_lines ls).2 =
      ((List.range ls.length).filter
        (fun i => removableLine ((ls.get? i).getD []))).foldl (extractRecord ls) [] := by
  refine ⟨extract_fst_filter ls, ?_⟩
  show (extractScan ls).1 = _
  unfold extractScan
  rw [extractScan_mapping ls (List.range ls.length) [] []]

/-! ## The champion failure path of `main` (src/deal_research.py:1794-1803)

When champion resolution fails, `main` still deduplicates the contacts by
name and prepends a CHAMPION-tagged placeholder block before the final
LinkedIn-line stripping (line 1806).
-/

/-- The contacts text produced by the failure branch: the CHAMPION marker
line, the placeholder block, a blank line and the name-deduplicated search
contacts. -/
def championFailureContacts (contacts : List Str) (championName : Str) : List Str :=
  "CHAMPION".toList :: championName ::
    "Title: Verify on profile".toList ::
    "LinkedIn: Search manually".toList ::
    "Insight: Deal champion for this opportunity".toList ::
    ([] : Str) :: deduplicate_champion_from_contacts contacts none championName

/-- The non-empty blocks of a text. -/
def blocksOf (ls : List Str) : List (List Str) :=
  (splitBlocks ls).filter (fun b => !(b.isEmpty))

/-- A block tagged with the CHAMPION marker: its first line, stripped, is the
literal marker line. -/
def championTagged (b : List Str) : Bool := pyStrip (b.headD []) == "CHAMPION".toList

theorem splitBlocksAux_flush (ys : List Str) :
    ∀ (xs : List Str) (acc : List Str), (∀ x ∈ xs, isBlankLine x = false) →
      splitBlocksAux (xs ++ ([] : Str) :: ys) acc =
        (acc.reverse ++ xs) :: splitBlocks ys := by
  intro xs
  induction xs with
  | nil =>
      intro acc _
      have hblank : isBlankLine ([] : Str) = true := by decide
      simp only [List.nil_append, splitBlocksAux, hblank, if_pos rfl, List.append_nil]
      rfl
  | cons x xs ih =>
      intro acc hxs
      have hx : isBlankLine x = false := hxs x (List.mem_cons_self x xs)
      have hstep : splitBlocksAux ((x :: xs) ++ ([] : Str) :: ys) acc =
          if isBlankLine x = true then
            acc.reverse :: splitBlocksAux (xs ++ ([] : Str) :: ys) []
          else splitBlocksAux (xs ++ ([] : Str) :: ys) (x :: acc) := rfl
      rw [hstep, hx, if_neg (by simp)]
      rw [ih (x :: acc) (fun z hz => hxs z (List.mem_cons_of_mem x hz))]
      simp [List.append_assoc]

theorem mem_blocksOf_head {ls : List Str} {b : List Str} (hb : b ∈ blocksOf ls) :
    b ≠ [] ∧ (b.headD []) ∈ ls := by
  unfold blocksOf at hb
  have h2 := List.mem_filter.mp hb
  have hne : b ≠ [] := by
    intro h
    rw [h] at h2
    simp at h2
  refine ⟨hne, ?_⟩
  cases b with
  | nil => exact absurd rfl hne
  | cons x xs => exact mem_splitBlocks h2.1 x (List.mem_cons_self x xs)

/-- Claim C5: given a champion name whose resolution failed, the final
contacts text (after champion dedup, placeholder insertion and LinkedIn-line
stripping) begins with the CHAMPION-tagged placeholder block — title line
`"Title: Verify on profile"`, link line `"LinkedIn: Search manually"` — and
no later block carries the CHAMPION tag, so the named champion is never
absent from the output.  (Side conditions: the champion name is a non-blank
single line that is not itself a strippable `"LinkedIn:"` line, and the
search contacts do not already contain the CHAMPION marker line.) -/
theorem C5_champion_placeholder (contacts : List Str) (championName : Str)
    (hname : pyStrip championName ≠ [])
    (hnl : ¬ ("LinkedIn:".toList).isPrefixOf (pyStrip championName) = true)
    (hcontacts : ∀ l ∈ contacts, pyStrip l ≠ "CHAMPION".toList) :
    ∃ rest,
      blocksOf ((extract_and_strip_linkedin_lines
          (championFailureContacts contacts championName)).1) =
        ("CHAMPION".toList :: championName ::
          "Title: Verify on profile".toList ::
          "LinkedIn: Search manually".toList ::
          "Insight: Deal champion for this opportunity".toList :: []) :: rest ∧
      ∀ b ∈ rest, championTagged b = false := by
  have h1 : removableLine ("CHAMPION".toList) = false := by decide
  have h2 : removableLine championName = false := by
    unfold removableLine
    rw [Bool.eq_false_iff.mpr hnl]
    rfl
  have h3 : removableLine ("Title: Verify on profile".toList) = false := by decide
  have h4 : removableLine ("LinkedIn: Search manually".toList) = false := by decide
  have h5 : removableLine
      ("Insight: Deal champion for this opportunity".toList) = false := by decide
  have h6 : removableLine ([] : Str) = false := by decide
  have hclean : (extract_and_strip_linkedin_lines
      (championFailureContacts contacts championName)).1 =
      "CHAMPION".toList :: championName ::
        "Title: Verify on profile".toList ::
        "LinkedIn: Search manually".toList ::
        "Insight: Deal champion for this opportunity".toList ::
        ([] : Str) ::
        (deduplicate_champion_from_contacts contacts none championName).filter
          (fun l => !(removableLine l)) := by
    rw [extract_fst_filter]
    unfold championFailureContacts
    rw [List.filter_cons_of_pos (by rw [h1]; rfl),
      List.filter_cons_of_pos (by rw [h2]; rfl),
      List.filter_cons_of_pos (by rw [h3]; rfl),
      List.filter_cons_of_pos (by rw [h4]; rfl),
      List.filter_cons_of_pos (by rw [h5]; rfl),
      List.filter_cons_of_pos (by rw [h6]; rfl)]
  rw [hclean]
  have hblanks : ∀ x ∈ ["CHAMPION".toList, championName,
      "Title: Verify on profile".toList,
      "LinkedIn: Search manually".toList,
      "Insight: Deal champion for this opportunity".toList], isBlankLine x = false := by
    intro x hx
    simp only [List.mem_cons, List.not_mem_nil, or_false] at hx
    rcases hx with rfl | rfl | rfl | rfl | rfl
    · decide
    · unfold isBlankLine
      rw [beq_eq_false_iff_ne]
      exact hname
    · decide
    · decide
    · decide
  have hsplit : splitBlocks ("CHAMPION".toList :: championName ::
      "Title: Verify on profile".toList ::
      "LinkedIn: Search manually".toList ::
      "Insight: Deal champion for this opportunity".toList ::
      ([] : Str) ::
      (deduplicate_champion_from_contacts contacts none championName).filter
        (fun l => !(removableLine l))) =
      ("CHAMPION".toList :: championName ::
        "Title: Verify on profile".toList ::
        "LinkedIn: Search manually".toList ::
        "Insight: Deal champion for this opportunity".toList :: []) ::
      splitBlocks ((deduplicate_champion_from_contacts contacts none
        championName).filter (fun l => !(removableLine l))) := by
    unfold splitBlocks
    exact splitBlocksAux_flush _ _ [] hblanks
  unfold blocksOf
  rw [hsplit, List.filter_cons]
  rw [if_pos (by simp)]
  refine ⟨(splitBlocks ((deduplicate_champion_from_contacts contacts none
      championName).filter (fun l => !(removableLine l)))).filter
      (fun b => !(b.isEmpty)), rfl, ?_⟩
  intro b hb
  have hmem := mem_blocksOf_head hb
  have hhead : (b.headD []) ∈ deduplicate_champion_from_contacts contacts
      none championName := List.mem_of_mem_filter hmem.2
  unfold championTagged
  rw [beq_eq_false_iff_ne]
  rcases dedup_line_strip hhead with hnil | ⟨l, hl, hstrip⟩
  · rw [hnil]
    decide
  · rw [hstrip]
    exact hcontacts l hl

theorem C5_champion_placeholder_witness :
    ∃ rest,
      blocksOf ((extract_and_strip_linkedin_lines
          (championFailureContacts
            ["John Doe".toList, "Title: CEO".toList,
              "LinkedIn: https://linkedin.com/in/johndoe".toList]
            "Jane Smith".toList)).1) =
        ("CHAMPION".toList :: "Jane Smith".toList ::
          "Title: Verify on profile".toList ::
          "LinkedIn: Search manually".toList ::
          "Insight: Deal champion for this opportunity".toList :: []) :: rest ∧
      ∀ b ∈ rest, championTagged b = false :=
  C5_champion_placeholder _ _ (by decide) (by decide) (by decide)

/-! ## URL validation and repair (src/deal_research.py:824-908)

`validate_and_fix_linkedin_urls` walks the profiles dict.  A URL carrying a
malformed percent-encoding pattern is sent to the Google repair search; a
clean URL is probed with a `GET` and kept on 200 (or any inconclusive
status), repaired or dropped on 404.  The repair search and the probe are
the two oracles of `ValidateEnv`.
-/

/-- A discovered profile (`{url, title, snippet, query}`). -/
structure Profile where
  url : Str
  title : Str
  snippet : Str
  query : Str
deriving DecidableEq

/-- The network oracles of validation: `repair` is
`find_linkedin_url_via_google(profile, company)` (`none` = no URL found or
any exception), `probe url` is the status code of `requests.get(url)`
(`none` = `requests.RequestException`). -/
structure ValidateEnv where
  repair : Profile → Option Str
  probe : Str → Option Nat

/-- The malformed percent-encoding patterns flagged by the validator. -/
def encodingPatterns : List Str :=
  ["%C3%".toList, "%C2%".toList, "%E2%".toList, "%C4%".toList, "%C5%".toList]

/-- The check `'%' in url and any(pattern in url for pattern in [...])`. -/
def hasEncodingIssue (url : Str) : Bool :=
  hasSubstr ("%".toList) url && encodingPatterns.any (fun p => hasSubstr p url)

/-- One iteration of the validation loop over `(url, data)`. -/
def validateStep (env : ValidateEnv) (acc : List (Str × Profile))
    (e : Str × Profile) : List (Str × Profile) :=
  if hasEncodingIssue e.1 then
    match env.repair e.2 with
    | some f =>
        if f ≠ [] ∧ f ≠ e.1 then dictInsert acc f { e.2 with url := f }
        else dictInsert acc e.1 e.2
    | none => dictInsert acc e.1 e.2
  else
    match env.probe e.1 with
    | some 200 => dictInsert acc e.1 e.2
    | some 404 =>
        match env.repair e.2 with
        | some f =>
            if f ≠ [] ∧ f ≠ e.1 then dictInsert acc f { e.2 with url := f }
            else acc
        | none => acc
    | some _ => dictInsert acc e.1 e.2
    | none => dictInsert acc e.1 e.2

/-- The function `validate_and_fix_linkedin_urls(profiles, company_name)`; the company
name only feeds the repair oracle, which is already curried into `env`. -/
def validate_and_fix_linkedin_urls (env : ValidateEnv)
    (profiles : List (Str × Profile)) : List (Str × Profile) :=
  profiles.foldl (validateStep env) []

/-- Every entry's `url` field equals its dict key — true of every dict the
adapters build (`profiles[url] = {"url": url, ...}`). -/
def KeyInv (d : List (Str × Profile)) : Prop := ∀ e ∈ d, e.2.url = e.1

/-- Each validation step either drops the entry or writes one key whose
stored `url` field is that key, provided the incoming entry was keyed by its
own `url` field. -/
theorem validateStep_shape (env : ValidateEnv) (acc : List (Str × Profile))
    (e : Str × Profile) :
    validateStep env acc e = acc ∨
      ∃ k v, validateStep env acc e = dictInsert acc k v ∧
        (e.2.url = e.1 → v.url = k) := by
  unfold validateStep
  split
  · split
    · split
      · exact Or.inr ⟨_, _, rfl, fun _ => rfl⟩
      · exact Or.inr ⟨e.1, e.2, rfl, fun h => h⟩
    · exact Or.inr ⟨e.1, e.2, rfl, fun h => h⟩
  · split
    · exact Or.inr ⟨e.1, e.2, rfl, fun h => h⟩
    · split
      · split
        · exact Or.inr ⟨_, _, rfl, fun _ => rfl⟩
        · exact Or.inl rfl
      · exact Or.inl rfl
    · exact Or.inr ⟨e.1, e.2, rfl, fun h => h⟩
    · exact Or.inr ⟨e.1, e.2, rfl, fun h => h⟩

theorem lookupD_isSome_dictInsert {α : Type} (d : List (Str × α)) (k u : Str)
    (v : α) (h : (lookupD d u).isSome) :
    (lookupD (dictInsert d k v) u).isSome := by
  rw [lookupD_dictInsert]
  by_cases hk : u = k
  · simp [hk]
  · rw [if_neg hk]
    exact h

theorem validateStep_preserves_isSome (env : ValidateEnv)
    (acc : List (Str × Profile)) (e : Str × Profile) (u : Str)
    (h : (lookupD acc u).isSome) :
    (lookupD (validateStep env acc e) u).isSome := by
  rcases validateStep_shape env acc e with heq | ⟨k, v, heq, _⟩
  · rw [heq]; exact h
  · rw [heq]; exact lookupD_isSome_dictInsert acc k u v h

theorem validateFold_preserves_isSome (env : ValidateEnv)
    (l : List (Str × Profile)) :
    ∀ (acc : List (Str × Profile)) (u : Str), (lookupD acc u).isSome →
      (lookupD (l.foldl (validateStep env) acc) u).isSome := by
  induction l with
  | nil => intro acc u h; exact h
  | cons e l ih =>
      intro acc u h
      exact ih _ u (validateStep_preserves_isSome env acc e u h)

/-- The value stored at key `u` always carries `u` in its `url` field. -/
def UrlFieldAt (u : Str) (acc : List (Str × Profile)) : Prop :=
  ∀ d, lookupD acc u = some d → d.url = u

theorem validateStep_preserves_field (env : ValidateEnv)
    (acc : List (Str × Profile)) (e : Str × Profile) (u : Str)
    (he : e.2.url = e.1) (h : UrlFieldAt u acc) :
    UrlFieldAt u (validateStep env acc e) := by
  rcases validateStep_shape env acc e with heq | ⟨k, v, heq, hv⟩
  · rw [heq]; exact h
  · rw [heq]
    intro d hd
    rw [lookupD_dictInsert] at hd
    by_cases hk : u = k
    · rw [if_pos hk] at hd
      cases hd
      rw [hv he, hk]
    · rw [if_neg hk] at hd
      exact h d hd

theorem validateFold_preserves_field (env : ValidateEnv)
    (l : List (Str × Profile)) (u : Str) :
    (∀ e ∈ l, e.2.url = e.1) →
      ∀ acc, UrlFieldAt u acc → UrlFieldAt u (l.foldl (validateStep env) acc) := by
  induction l with
  | nil => intro _ acc h; exact h
  | cons e l ih =>
      intro hl acc h
      exact ih (fun x hx => hl x (List.mem_cons_of_mem e hx)) _
        (validateStep_preserves_field env acc e u (hl e (List.mem_cons_self e l)) h)

theorem validateStep_200 (env : ValidateEnv) (acc : List (Str × Profile))
    (e : Str × Profile) (henc : hasEncodingIssue e.1 = false)
    (hp : env.probe e.1 = some 200) :
    validateStep env acc e = dictInsert acc e.1 e.2 := by
  unfold validateStep
  rw [if_neg (by simp [henc])]
  simp only [hp]

theorem validateStep_flag_repair (env : ValidateEnv) (acc : List (Str × Profile))
    (e : Str × Profile) (henc : hasEncodingIssue e.1 = true) (f : Str)
    (hr : env.repair e.2 = some f) (hf1 : f ≠ []) (hf2 : f ≠ e.1) :
    validateStep env acc e = dictInsert acc f { e.2 with url := f } := by
  unfold validateStep
  rw [if_pos henc]
  simp only [hr]
  rw [if_pos ⟨hf1, hf2⟩]

theorem validateStep_flag_keep (env : ValidateEnv) (acc : List (Str × Profile))
    (e : Str × Profile) (henc : hasEncodingIssue e.1 = true)
    (hcase : env.repair e.2 = none ∨ env.repair e.2 = some e.1) :
    validateStep env acc e = dictInsert acc e.1 e.2 := by
  unfold validateStep
  rw [if_pos henc]
  rcases hcase with hr | hr
  · simp only [hr]
  · simp only [hr]
    rw [if_neg (fun hc => hc.2 rfl)]

/-- If some entry of the dict makes its validation step insert key `target`,
then after the whole validation `target` is present and (when every entry is
keyed by its own url field) its stored url field is `target`. -/
theorem validate_lookup_target (env : ValidateEnv) (p : List (Str × Profile))
    (target : Str) (hkey : ∀ e ∈ p, e.2.url = e.1)
    (e₀ : Str × Profile) (he₀ : e₀ ∈ p)
    (hstep : ∀ acc, (lookupD (validateStep env acc e₀) target).isSome) :
    ∃ d, lookupD (validate_and_fix_linkedin_urls env p) target = some d ∧
      d.url = target := by
  obtain ⟨l1, l2, hsplit⟩ := List.append_of_mem he₀
  have hpres : (lookupD (validate_and_fix_linkedin_urls env p) target).isSome := by
    unfold validate_and_fix_linkedin_urls
    rw [hsplit, List.foldl_append, List.foldl_cons]
    exact validateFold_preserves_isSome env l2 _ target (hstep _)
  have hfield : UrlFieldAt target (validate_and_fix_linkedin_urls env p) := by
    unfold validate_and_fix_linkedin_urls
    apply validateFold_preserves_field env p target hkey
    intro d hd
    simp [lookupD] at hd
  cases hq : lookupD (validate_and_fix_linkedin_urls env p) target with
  | none => rw [hq] at hpres; simp at hpres
  | some d => exact ⟨d, rfl, hfield d hq⟩

theorem validateStep_preserves_KeyInv (env : ValidateEnv)
    (acc : List (Str × Profile)) (e : Str × Profile) (he : e.2.url = e.1)
    (h : KeyInv acc) : KeyInv (validateStep env acc e) := by
  rcases validateStep_shape env acc e with heq | ⟨k, v, heq, hv⟩
  · rw [heq]; exact h
  · rw [heq]
    intro e' he'
    rcases mem_dictInsert he' with h' | h'
    · exact h e' h'
    · rw [h']; exact hv he

theorem validate_preserves_KeyInv (env : ValidateEnv) (p : List (Str × Profile))
    (h : KeyInv p) : KeyInv (validate_and_fix_linkedin_urls env p) := by
  unfold validate_and_fix_linkedin_urls
  have hgen : ∀ (l : List (Str × Profile)) (acc : List (Str × Profile)),
      (∀ e ∈ l, e.2.url = e.1) → KeyInv acc →
      KeyInv (l.foldl (validateStep env) acc) := by
    intro l
    induction l with
    | nil => intro acc _ hacc; exact hacc
    | cons e l ih =>
        intro acc hl hacc
        exact ih _ (fun x hx => hl x (List.mem_cons_of_mem e hx))
          (validateStep_preserves_KeyInv env acc e (hl e (List.mem_cons_self e l)) hacc)
  exact hgen p [] h (fun e he => absurd he (List.not_mem_nil e))

/-- Claim C7: for a profile flagged with a malformed percent-encoding
pattern, if the repair search returns a URL different from the original
(and non-empty, matching Python's truthiness), the validated dict stores the
profile under the repaired URL with its `url` field equal to the repaired
URL; if the repair search returns nothing or the same URL, the profile is
kept under the original flagged URL. -/
theorem C7_url_repair_substitution (env : ValidateEnv)
    (p : List (Str × Profile)) (url : Str) (data : Profile)
    (hkey : KeyInv p) (hmem : (url, data) ∈ p)
    (henc : hasEncodingIssue url = true) :
    (∀ f, env.repair data = some f → f ≠ [] → f ≠ url →
      ∃ d, lookupD (validate_and_fix_linkedin_urls env p) f = some d ∧
        d.url = f) ∧
    ((env.repair data = none ∨ env.repair data = some url) →
      ∃ d, lookupD (validate_and_fix_linkedin_urls env p) url = some d ∧
        d.url = url) := by
  constructor
  · intro f hr hf1 hf2
    refine validate_lookup_target env p f hkey (url, data) hmem (fun acc => ?_)
    rw [validateStep_flag_repair env acc (url, data) henc f hr hf1 hf2,
      lookupD_dictInsert]
    simp
  · intro hcase
    refine validate_lookup_target env p url hkey (url, data) hmem (fun acc => ?_)
    rw [validateStep_flag_keep env acc (url, data) henc hcase, lookupD_dictInsert]
    simp

/-- Claim C8: a profile whose URL is not flagged and whose liveness probe
returns HTTP 200 is kept by validation with its `url` field unchanged, and
re-running validation on the validated dict again leaves its `url` field
unchanged (idempotence on valid profiles). -/
theorem C8_validation_idempotent (env : ValidateEnv)
    (p : List (Str × Profile)) (url : Str) (data : Profile)
    (hkey : KeyInv p) (hmem : (url, data) ∈ p)
    (henc : hasEncodingIssue url = false) (hp : env.probe url = some 200) :
    (∃ d, lookupD (validate_and_fix_linkedin_urls env p) url = some d ∧
      d.url = data.url) ∧
    (∃ d, lookupD (validate_and_fix_linkedin_urls env
        (validate_and_fix_linkedin_urls env p)) url = some d ∧
      d.url = data.url) := by
  have hdata : data.url = url := hkey (url, data) hmem
  have h1 : ∃ d, lookupD (validate_and_fix_linkedin_urls env p) url = some d ∧
      d.url = url := by
    refine validate_lookup_target env p url hkey (url, data) hmem (fun acc => ?_)
    rw [validateStep_200 env acc (url, data) henc hp, lookupD_dictInsert]
    simp
  obtain ⟨d, hd, hdu⟩ := h1
  have hkey2 : KeyInv (validate_and_fix_linkedin_urls env p) :=
    validate_preserves_KeyInv env p hkey
  have hmem2 : (url, d) ∈ validate_and_fix_linkedin_urls env p := lookupD_mem hd
  have h2 : ∃ d', lookupD (validate_and_fix_linkedin_urls env
      (validate_and_fix_linkedin_urls env p)) url = some d' ∧ d'.url = url := by
    refine validate_lookup_target env _ url hkey2 (url, d) hmem2 (fun acc => ?_)
    rw [validateStep_200 env acc (url, d) henc hp, lookupD_dictInsert]
    simp
  obtain ⟨d', hd', hdu'⟩ := h2
  exact ⟨⟨d, hd, by rw [hdu, hdata]⟩, ⟨d', hd', by rw [hdu', hdata]⟩⟩

/-- A flagged URL (contains `%C3%`) and the clean URL its repair search finds. -/
def flaggedUrl : Str := "https://linkedin.com/in/j%C3%B6rg".toList

def repairedUrl : Str := "https://linkedin.com/in/jorg".toList

def flaggedProfile : Profile :=
  { url := flaggedUrl, title := "Jorg - CMO | LinkedIn".toList,
    snippet := "CMO at Acme".toList, query := "q".toList }

def envRepairW : ValidateEnv :=
  { repair := fun _ => some repairedUrl, probe := fun _ => some 200 }

theorem C7_url_repair_substitution_witness :
    ∃ d, lookupD (validate_and_fix_linkedin_urls envRepairW
        [(flaggedUrl, flaggedProfile)]) repairedUrl = some d ∧
      d.url = repairedUrl :=
  (C7_url_repair_substitution envRepairW [(flaggedUrl, flaggedProfile)]
      flaggedUrl flaggedProfile (by unfold KeyInv; decide) (by decide) (by decide)).1
    repairedUrl (by decide) (by decide) (by decide)

def okUrl : Str := "https://linkedin.com/in/ok".toList

def okProfile : Profile :=
  { url := okUrl, title := "Ok Person | LinkedIn".toList,
    snippet := "snippet".toList, query := "q".toList }

def envProbeW : ValidateEnv :=
  { repair := fun _ => none, probe := fun _ => some 200 }

theorem C8_validation_idempotent_witness :
    (∃ d, lookupD (validate_and_fix_linkedin_urls envProbeW
        [(okUrl, okProfile)]) okUrl = some d ∧ d.url = okProfile.url) ∧
    (∃ d, lookupD (validate_and_fix_linkedin_urls envProbeW
        (validate_and_fix_linkedin_urls envProbeW [(okUrl, okProfile)])) okUrl =
      some d ∧ d.url = okProfile.url) :=
  C8_validation_idempotent envProbeW [(okUrl, okProfile)] okUrl okProfile
    (by unfold KeyInv; decide) (by decide) (by decide) (by decide)

/-! ## Provider adapters and the two-bucket pass scheduler
(src/deal_research.py:471-513 and 596-731)

The Tavily client is the per-query oracle `tavily : query → Option (results)`
(`none` = the exception caught by the adapter's `except` clause).  The Gemini
grounded adapter issues one batched call and parses free text; its parsed
profile dict for a given role list is the oracle `gemini`.
-/

/-- One row of a Tavily response (`{url, title, content}`). -/
structure SearchResult where
  url : Str
  title : Str
  content : Str
deriving DecidableEq

/-- The inner result loop of `_tavily_linkedin_search`: keep rows whose URL
is a personal profile (`"linkedin.com/in/" in url`) and not already
collected. -/
def tavilyCollect (q : Str) (results : List SearchResult)
    (profiles : List (Str × Profile)) : List (Str × Profile) :=
  results.foldl (fun acc r =>
    if hasSubstr ("linkedin.com/in/".toList) r.url && (lookupD acc r.url).isNone then
      dictInsert acc r.url
        { url := r.url, title := r.title, snippet := r.content, query := q }
    else acc) profiles

/-- The adapter `_tavily_linkedin_search(tavily_client, queries, company_name)`: one
search per query; a query whose call raises is logged and skipped
(`continue`), never aborting the batch. -/
def tavily_linkedin_search (oracle : Str → Option (List SearchResult))
    (queries : List Str) : List (Str × Profile) :=
  queries.foldl (fun acc q =>
    match oracle q with
    | none => acc
    | some rs => tavilyCollect q rs acc) []

theorem tavily_foldl_filter (oracle : Str → Option (List SearchResult)) :
    ∀ (qs : List Str) (acc : List (Str × Profile)),
      qs.foldl (fun acc q =>
        match oracle q with
        | none => acc
        | some rs => tavilyCollect q rs acc) acc =
      (qs.filter (fun q => (oracle q).isSome)).foldl (fun acc q =>
        match oracle q with
        | none => acc
        | some rs => tavilyCollect q rs acc) acc := by
  intro qs
  induction qs with
  | nil => intro acc; rfl
  | cons q qs ih =>
      intro acc
      rw [List.foldl_cons, List.filter_cons]
      cases hq : oracle q with
      | none =>
          rw [if_neg (by simp [hq])]
          simp only [hq]
          exact ih acc
      | some rs =>
          rw [if_pos (by simp [hq]), List.foldl_cons]
          simp only [hq]
          exact ih (tavilyCollect q rs acc)

/-- Claim C9: per-query fault isolation — the keyword adapter returns exactly
what it returns on the subsequence of queries whose calls succeed; a failing
query is skipped without aborting the batch or discarding collected
results. -/
theorem C9_per_query_fault_isolation (oracle : Str → Option (List SearchResult))
    (queries : List Str) :
    tavily_linkedin_search oracle queries =
      tavily_linkedin_search oracle
        (queries.filter (fun q => (oracle q).isSome)) := by
  unfold tavily_linkedin_search
  exact tavily_foldl_filter oracle queries []

theorem keys_nodup_tavilyCollect (q : Str) (results : List SearchResult) :
    ∀ acc : List (Str × Profile), ((acc.map (·.1)).Nodup) →
      ((tavilyCollect q results acc).map (·.1)).Nodup := by
  unfold tavilyCollect
  induction results with
  | nil => intro acc h; exact h
  | cons r rest ih =>
      intro acc h
      rw [List.foldl_cons]
      by_cases hc : (hasSubstr ("linkedin.com/in/".toList) r.url &&
          (lookupD acc r.url).isNone) = true
      · rw [if_pos hc]
        exact ih _ (keys_nodup_dictInsert h)
      · rw [if_neg hc]
        exact ih _ h

theorem keys_nodup_tavily (oracle : Str → Option (List SearchResult))
    (queries : List Str) :
    ((tavily_linkedin_search oracle queries).map (·.1)).Nodup := by
  unfold tavily_linkedin_search
  have hgen : ∀ (qs : List Str) (acc : List (Str × Profile)),
      ((acc.map (·.1)).Nodup) →
      (((qs.foldl (fun acc q =>
        match oracle q with
        | none => acc
        | some rs => tavilyCollect q rs acc) acc)).map (·.1)).Nodup := by
    intro qs
    induction qs with
    | nil => intro acc h; exact h
    | cons q qs ih =>
        intro acc h
        rw [List.foldl_cons]
        cases hq : oracle q with
        | none => simp only [hq]; exact ih acc h
        | some rs =>
            simp only [hq]
            exact ih _ (keys_nodup_tavilyCollect q rs acc h)
  exact hgen queries [] (by simp)

/-- The query template used by every keyword pass. -/
def mkQuery (c : Str) (role : String) : Str :=
  "site:linkedin.com/in \"".toList ++ c ++ "\" ".toList ++ role.toList

def pass1Queries (c : Str) : List Str :=
  [mkQuery c "CMO", mkQuery c "\"Chief Marketing Officer\"",
    mkQuery c "\"VP Marketing\"", mkQuery c "\"SVP Marketing\"",
    mkQuery c "ABM", mkQuery c "\"Account-Based Marketing\"",
    mkQuery c "\"Demand Gen\"", mkQuery c "\"Demand Generation\"",
    mkQuery c "\"Growth Marketing\""]

def pass2Queries (c : Str) : List Str :=
  [mkQuery c "\"Marketing Operations\"", mkQuery c "\"Marketing Ops\"",
    mkQuery c "MOPs", mkQuery c "\"Marketing Technology\"",
    mkQuery c "\"Revenue Operations\""]

def pass4Queries (c : Str) : List Str :=
  [mkQuery c "CEO", mkQuery c "CRO", mkQuery c "Founder", mkQuery c "President"]

def pass3Roles : List Str :=
  ["Director Marketing".toList, "Digital Marketing".toList,
    "Product Marketing".toList, "Field Marketing".toList,
    "Content Marketing".toList]

def pass5Roles : List Str :=
  ["CFO".toList, "COO".toList, "CTO".toList, "Co-Founder".toList]

def pass6Roles : List Str :=
  ["VP Sales".toList, "VP Revenue".toList,
    "Director Sales".toList, "Director Revenue".toList]

/-- The merge `_merge_into_bucket(bucket, new_profiles, seen_urls)`
(src/deal_research.py:575-593): add each new profile unless its URL is in
the global seen set; returns the updated bucket and seen set (both mutated
in place in Python). -/
def merge_into_bucket :
    List (Str × Profile) → List (Str × Profile) → List Str →
      List (Str × Profile) × List Str
  | bucket, [], seen => (bucket, seen)
  | bucket, e :: rest, seen =>
      if e.1 ∈ seen then merge_into_bucket bucket rest seen
      else merge_into_bucket (dictInsert bucket e.1 e.2) rest (seen ++ [e.1])

/-- The environment of one `search_linkedin_contacts_with_tavily` run: the
two search backends, the validation oracles, and the text the full-Gemini
fallback (`search_linkedin_contacts_with_gemini`) would return. -/
structure PipelineEnv where
  tavily : Str → Option (List SearchResult)
  gemini : List Str → Str → List (Str × Profile)
  venv : ValidateEnv
  fallbackText : Str

/-! The six passes and their merges, stage by stage (`tbM*` is the MARKETING
bucket with the global seen set, `tbL*` the LEADERSHIP bucket with the same
seen set threaded through). -/

def tbPass1 (env : PipelineEnv) (c : Str) : List (Str × Profile) :=
  tavily_linkedin_search env.tavily (pass1Queries c)

def tbM1 (env : PipelineEnv) (c : Str) : List (Str × Profile) × List Str :=
  merge_into_bucket [] (tbPass1 env c) []

def tbPass2 (env : PipelineEnv) (c : Str) : List (Str × Profile) :=
  tavily_linkedin_search env.tavily (pass2Queries c)

def tbM2 (env : PipelineEnv) (c : Str) : List (Str × Profile) × List Str :=
  merge_into_bucket (tbM1 env c).1 (tbPass2 env c) (tbM1 env c).2

/-- Pass 3 runs only when the marketing bucket holds fewer than 5 profiles
after passes 1-2 (`if len(marketing_profiles) < 5`). -/
def tbPass3 (env : PipelineEnv) (c : Str) : Option (List (Str × Profile)) :=
  if (tbM2 env c).1.length < 5 then some (env.gemini pass3Roles c) else none

def tbM3 (env : PipelineEnv) (c : Str) : List (Str × Profile) × List Str :=
  match tbPass3 env c with
  | some d => merge_into_bucket (tbM2 env c).1 d (tbM2 env c).2
  | none => tbM2 env c

def tbPass4 (env : PipelineEnv) (c : Str) : List (Str × Profile) :=
  tavily_linkedin_search env.tavily (pass4Queries c)

def tbL4 (env : PipelineEnv) (c : Str) : List (Str × Profile) × List Str :=
  merge_into_bucket [] (tbPass4 env c) (tbM3 env c).2

/-- Pass 5 runs only when the leadership bucket holds fewer than 5 profiles
after pass 4. -/
def tbPass5 (env : PipelineEnv) (c : Str) : Option (List (Str × Profile)) :=
  if (tbL4 env c).1.length < 5 then some (env.gemini pass5Roles c) else none

def tbL5 (env : PipelineEnv) (c : Str) : List (Str × Profile) × List Str :=
  match tbPass5 env c with
  | some d => merge_into_bucket (tbL4 env c).1 d (tbL4 env c).2
  | none => tbL4 env c

/-- Pass 6 runs only when the leadership bucket still holds fewer than 5. -/
def tbPass6 (env : PipelineEnv) (c : Str) : Option (List (Str × Profile)) :=
  if (tbL5 env c).1.length < 5 then some (env.gemini pass6Roles c) else none

def tbL6 (env : PipelineEnv) (c : Str) : List (Str × Profile) × List Str :=
  match tbPass6 env c with
  | some d => merge_into_bucket (tbL5 env c).1 d (tbL5 env c).2
  | none => tbL5 env c

/-- Per-bucket URL validation (`marketing_profiles =
validate_and_fix_linkedin_urls(marketing_profiles, company_name)`). -/
def tbMValid (env : PipelineEnv) (c : Str) : List (Str × Profile) :=
  validate_and_fix_linkedin_urls env.venv (tbM3 env c).1

def tbLValid (env : PipelineEnv) (c : Str) : List (Str × Profile) :=
  validate_and_fix_linkedin_urls env.venv (tbL6 env c).1

/-- Which of the two return paths the pipeline takes: the full-Gemini
fallback output, or the two-bucket data handed to the formatting call. -/
inductive ContactsResult where
  | fromFallback : Str → ContactsResult
  | fromTwoBucket : List (Str × Profile) → List (Str × Profile) → ContactsResult
deriving DecidableEq

/-- The fallback decision of `search_linkedin_contacts_with_tavily`
(src/deal_research.py:724-731): fewer than 3 valid profiles overall
abandons the buckets for the single broad Gemini search. -/
def search_linkedin_contacts_with_tavily (env : PipelineEnv) (c : Str) :
    ContactsResult :=
  if (tbMValid env c).length + (tbLValid env c).length < 3 then
    ContactsResult.fromFallback env.fallbackText
  else
    ContactsResult.fromTwoBucket (tbMValid env c) (tbLValid env c)

/-- Claim C2: if the total number of validated profiles across both buckets
is below 3, the pipeline returns the single broad grounded search-and-format
output and never the two-bucket format; with 3 or more it returns the
two-bucket result. -/
theorem C2_global_fallback (env : PipelineEnv) (c : Str) :
    ((tbMValid env c).length + (tbLValid env c).length < 3 →
      search_linkedin_contacts_with_tavily env c =
        ContactsResult.fromFallback env.fallbackText ∧
      ∀ a b, search_linkedin_contacts_with_tavily env c ≠
        ContactsResult.fromTwoBucket a b) ∧
    (3 ≤ (tbMValid env c).length + (tbLValid env c).length →
      search_linkedin_contacts_with_tavily env c =
        ContactsResult.fromTwoBucket (tbMValid env c) (tbLValid env c)) := by
  constructor
  · intro h
    unfold search_linkedin_contacts_with_tavily
    rw [if_pos h]
    exact ⟨rfl, fun a b hcon => ContactsResult.noConfusion hcon⟩
  · intro h
    unfold search_linkedin_contacts_with_tavily
    rw [if_neg (Nat.not_lt.mpr h)]

/-- Claim C3: each conditional pass (3, 5, 6) executes exactly when its
bucket holds fewer than 5 entries at the moment its trigger is evaluated; a
skipped pass performs no search and leaves the buckets and the seen set
untouched. -/
theorem C3_conditional_pass_trigger (env : PipelineEnv) (c : Str) :
    ((tbM2 env c).1.length < 5 →
      tbPass3 env c = some (env.gemini pass3Roles c)) ∧
    (¬ (tbM2 env c).1.length < 5 →
      tbPass3 env c = none ∧ tbM3 env c = tbM2 env c) ∧
    ((tbL4 env c).1.length < 5 →
      tbPass5 env c = some (env.gemini pass5Roles c)) ∧
    (¬ (tbL4 env c).1.length < 5 →
      tbPass5 env c = none ∧ tbL5 env c = tbL4 env c) ∧
    ((tbL5 env c).1.length < 5 →
      tbPass6 env c = some (env.gemini pass6Roles c)) ∧
    (¬ (tbL5 env c).1.length < 5 →
      tbPass6 env c = none ∧ tbL6 env c = tbL5 env c) := by
  refine ⟨?_, ?_, ?_, ?_, ?_, ?_⟩
  · intro h; unfold tbPass3; rw [if_pos h]
  · intro h
    have h3 : tbPass3 env c = none := by unfold tbPass3; rw [if_neg h]
    exact ⟨h3, by unfold tbM3; rw [h3]⟩
  · intro h; unfold tbPass5; rw [if_pos h]
  · intro h
    have h5 : tbPass5 env c = none := by unfold tbPass5; rw [if_neg h]
    exact ⟨h5, by unfold tbL5; rw [h5]⟩
  · intro h; unfold tbPass6; rw [if_pos h]
  · intro h
    have h6 : tbPass6 env c = none := by unfold tbPass6; rw [if_neg h]
    exact ⟨h6, by unfold tbL6; rw [h6]⟩

/-! ### Concrete environments for the witnesses and the counterexample -/

def cW : Str := "Acme".toList

def rA : SearchResult :=
  { url := "https://linkedin.com/in/a".toList, title := "A | LinkedIn".toList,
    content := "sa".toList }

def rB : SearchResult :=
  { url := "https://linkedin.com/in/b".toList, title := "B | LinkedIn".toList,
    content := "sb".toList }

def rC : SearchResult :=
  { url := "https://linkedin.com/in/c".toList, title := "C | LinkedIn".toList,
    content := "sc".toList }

def rD : SearchResult :=
  { url := "https://linkedin.com/in/d".toList, title := "D | LinkedIn".toList,
    content := "sd".toList }

def rE : SearchResult :=
  { url := "https://linkedin.com/in/e".toList, title := "E | LinkedIn".toList,
    content := "se".toList }

/-- Every query fails, every grounded call parses nothing: the run collects
no profiles at all. -/
def envFallbackW : PipelineEnv :=
  { tavily := fun _ => none, gemini := fun _ _ => [],
    venv := envProbeW, fallbackText := "broad gemini output".toList }

/-- Every query returns the same three profiles. -/
def envThreeW : PipelineEnv :=
  { tavily := fun _ => some [rA, rB, rC], gemini := fun _ _ => [],
    venv := envProbeW, fallbackText := "broad gemini output".toList }

/-- Every query returns the same five profiles, filling the marketing bucket. -/
def envFiveW : PipelineEnv :=
  { tavily := fun _ => some [rA, rB, rC, rD, rE], gemini := fun _ _ => [],
    venv := envProbeW, fallbackText := "broad gemini output".toList }

theorem C2_global_fallback_witness :
    (search_linkedin_contacts_with_tavily envFallbackW cW =
      ContactsResult.fromFallback envFallbackW.fallbackText) ∧
    (search_linkedin_contacts_with_tavily envThreeW cW =
      ContactsResult.fromTwoBucket (tbMValid envThreeW cW) (tbLValid envThreeW cW)) :=
  ⟨((C2_global_fallback envFallbackW cW).1 (by decide)).1,
   (C2_global_fallback envThreeW cW).2 (by decide)⟩

theorem C3_conditional_pass_trigger_witness :
    (tbPass3 envFallbackW cW = some (envFallbackW.gemini pass3Roles cW)) ∧
    (tbPass3 envFiveW cW = none ∧ tbM3 envFiveW cW = tbM2 envFiveW cW) :=
  ⟨(C3_conditional_pass_trigger envFallbackW cW).1 (by decide),
   (C3_conditional_pass_trigger envFiveW cW).2.1 (by decide)⟩

/-! ### The global seen set keeps the buckets key-disjoint through the merges -/

theorem merge_into_bucket_sub :
    ∀ (new : List (Str × Profile)) (bucket : List (Str × Profile)) (seen : List Str),
      (∀ k ∈ bucket.map (·.1), k ∈ seen) →
      (∀ k ∈ (merge_into_bucket bucket new seen).1.map (·.1),
        k ∈ (merge_into_bucket bucket new seen).2) ∧
      (∀ u ∈ seen, u ∈ (merge_into_bucket bucket new seen).2) := by
  intro new
  induction new with
  | nil => intro bucket seen h; exact ⟨h, fun u hu => hu⟩
  | cons e rest ih =>
      intro bucket seen h
      by_cases hs : e.1 ∈ seen
      · simp only [merge_into_bucket, if_pos hs]
        exact ih bucket seen h
      · simp only [merge_into_bucket, if_neg hs]
        have hsub : ∀ k ∈ (dictInsert bucket e.1 e.2).map (·.1), k ∈ seen ++ [e.1] := by
          intro k hk
          rcases keys_dictInsert_sub k hk with h' | h'
          · exact List.mem_append_left _ (h k h')
          · rw [h']; exact List.mem_append_right _ (List.mem_singleton.mpr rfl)
        have hres := ih (dictInsert bucket e.1 e.2) (seen ++ [e.1]) hsub
        exact ⟨hres.1, fun u hu => hres.2 u (List.mem_append_left _ hu)⟩

theorem merge_into_bucket_avoid :
    ∀ (new : List (Str × Profile)) (bucket : List (Str × Profile))
      (seen X : List Str),
      (∀ k ∈ X, k ∈ seen) → (∀ k ∈ bucket.map (·.1), k ∉ X) →
      ∀ k ∈ (merge_into_bucket bucket new seen).1.map (·.1), k ∉ X := by
  intro new
  induction new with
  | nil => intro bucket seen X _ hb; exact hb
  | cons e rest ih =>
      intro bucket seen X hX hb
      by_cases hs : e.1 ∈ seen
      · simp only [merge_into_bucket, if_pos hs]
        exact ih bucket seen X hX hb
      · simp only [merge_into_bucket, if_neg hs]
        have hb' : ∀ k ∈ (dictInsert bucket e.1 e.2).map (·.1), k ∉ X := by
          intro k hk
          rcases keys_dictInsert_sub k hk with h' | h'
          · exact hb k h'
          · rw [h']; exact fun hmem => hs (hX e.1 hmem)
        have hX' : ∀ k ∈ X, k ∈ seen ++ [e.1] :=
          fun k hk => List.mem_append_left _ (hX k hk)
        exact ih (dictInsert bucket e.1 e.2) (seen ++ [e.1]) X hX' hb'

/-- The marketing bucket after its three passes is covered by the global
seen set handed on to the leadership phase. -/
theorem tbM3_keys_sub_seen (env : PipelineEnv) (c : Str) :
    ∀ k ∈ (tbM3 env c).1.map (·.1), k ∈ (tbM3 env c).2 := by
  have h1 := merge_into_bucket_sub (tbPass1 env c) [] []
    (by intro k hk; simp at hk)
  have h2 := merge_into_bucket_sub (tbPass2 env c) (tbM1 env c).1 (tbM1 env c).2 h1.1
  cases hp3 : tbPass3 env c with
  | some d =>
      have h3 := merge_into_bucket_sub d (tbM2 env c).1 (tbM2 env c).2 h2.1
      unfold tbM3
      rw [hp3]
      exact h3.1
  | none =>
      unfold tbM3
      rw [hp3]
      exact h2.1

/-- Claim C1, amended: after every merge of the two-bucket search — i.e.
for the final merged buckets, before URL validation — no URL is a key of
both buckets: every merge consults the single global seen set.  (URL
validation/repair can break this; see the counterexample.) -/
theorem C1_bucket_exclusivity_after_merges (env : PipelineEnv) (c : Str) :
    ∀ k ∈ (tbM3 env c).1.map (·.1), k ∉ (tbL6 env c).1.map (·.1) := by
  intro k hk
  have hX := tbM3_keys_sub_seen env c
  have h4avoid : ∀ x ∈ (tbL4 env c).1.map (·.1), x ∉ (tbM3 env c).1.map (·.1) := by
    unfold tbL4
    exact merge_into_bucket_avoid (tbPass4 env c) [] (tbM3 env c).2
      ((tbM3 env c).1.map (·.1)) hX (by intro x hx; simp at hx)
  have h4sub : (∀ x ∈ (tbL4 env c).1.map (·.1), x ∈ (tbL4 env c).2) ∧
      (∀ u ∈ (tbM3 env c).2, u ∈ (tbL4 env c).2) := by
    unfold tbL4
    exact merge_into_bucket_sub (tbPass4 env c) [] (tbM3 env c).2
      (by intro x hx; simp at hx)
  have hX4 : ∀ x ∈ (tbM3 env c).1.map (·.1), x ∈ (tbL4 env c).2 :=
    fun x hx => h4sub.2 x (hX x hx)
  have h5pack : (∀ x ∈ (tbL5 env c).1.map (·.1), x ∉ (tbM3 env c).1.map (·.1)) ∧
      (∀ x ∈ (tbM3 env c).1.map (·.1), x ∈ (tbL5 env c).2) ∧
      (∀ x ∈ (tbL5 env c).1.map (·.1), x ∈ (tbL5 env c).2) := by
    cases hp5 : tbPass5 env c with
    | some d =>
        have havoid := merge_into_bucket_avoid d (tbL4 env c).1 (tbL4 env c).2
          ((tbM3 env c).1.map (fun x => x.1)) hX4 h4avoid
        have hsub := merge_into_bucket_sub d (tbL4 env c).1 (tbL4 env c).2 h4sub.1
        unfold tbL5
        rw [hp5]
        exact ⟨havoid, fun x hx => hsub.2 x (hX4 x hx), hsub.1⟩
    | none =>
        unfold tbL5
        rw [hp5]
        exact ⟨h4avoid, hX4, h4sub.1⟩
  have h6avoid : ∀ x ∈ (tbL6 env c).1.map (·.1), x ∉ (tbM3 env c).1.map (·.1) := by
    cases hp6 : tbPass6 env c with
    | some d =>
        have havoid := merge_into_bucket_avoid d (tbL5 env c).1 (tbL5 env c).2
          ((tbM3 env c).1.map (·.1)) h5pack.2.1 h5pack.1
        unfold tbL6
        rw [hp6]
        exact havoid
    | none =>
        unfold tbL6
        rw [hp6]
        exact h5pack.1
  exact fun hkl => h6avoid k hkl hk

/-- The environment of the C1 counterexample: pass 1 finds a marketing
profile with a mis-encoded URL, pass 4 finds the clean URL of the same
person as leadership, and the repair search fixes the marketing URL to that
same clean URL. -/
def resFlagged : SearchResult :=
  { url := flaggedUrl, title := "Jorg - CMO | LinkedIn".toList,
    content := "s".toList }

def resClean : SearchResult :=
  { url := repairedUrl, title := "Jorg - CEO | LinkedIn".toList,
    content := "s".toList }

def envCrossW : PipelineEnv :=
  { tavily := fun q =>
      if hasSubstr ("CEO".toList) q then some [resClean] else some [resFlagged],
    gemini := fun _ _ => [],
    venv :=
      { repair := fun p => if p.url = flaggedUrl then some repairedUrl else none,
        probe := fun _ => some 200 },
    fallbackText := [] }

/-- Counterexample to claim C1 as stated: after per-bucket URL
validation/repair, the URL `https://linkedin.com/in/jorg` is a key of BOTH
the validated MARKETING bucket and the validated LEADERSHIP bucket, because
the repair of the mis-encoded marketing URL does not consult the global
seen set. -/
theorem C1_cross_bucket_counterexample :
    repairedUrl ∈ (tbMValid envCrossW cW).map (·.1) ∧
    repairedUrl ∈ (tbLValid envCrossW cW).map (·.1) := by decide

/-! ### Counting: each merge adds exactly the not-yet-seen URLs -/

theorem countP_congr_mem {α : Type} {l : List α} {p q : α → Bool}
    (h : ∀ a ∈ l, p a = q a) : l.countP p = l.countP q := by
  induction l with
  | nil => rfl
  | cons a t ih =>
      rw [List.countP_cons, List.countP_cons, h a (List.mem_cons_self a t),
        ih (fun b hb => h b (List.mem_cons_of_mem a hb))]

theorem countP_fresh_iff (l : List (Str × Profile)) (seen : List Str) :
    (l.countP (fun e => !(decide (e.1 ∈ seen))) = l.length) ↔
      ∀ e ∈ l, e.1 ∉ seen := by
  rw [List.countP_eq_length]
  constructor
  · intro h e he
    have := h e he
    simpa using this
  · intro h e he
    simp [h e he]

theorem merge_into_bucket_count :
    ∀ (new bucket : List (Str × Profile)) (seen : List Str),
      ((new.map (·.1)).Nodup) → (∀ k ∈ bucket.map (·.1), k ∈ seen) →
      (merge_into_bucket bucket new seen).1.length =
        bucket.length + new.countP (fun e => !(decide (e.1 ∈ seen))) := by
  intro new
  induction new with
  | nil => intro bucket seen _ _; simp [merge_into_bucket]
  | cons e rest ih =>
      intro bucket seen hnd hsub
      rw [List.map_cons, List.nodup_cons] at hnd
      by_cases hs : e.1 ∈ seen
      · simp only [merge_into_bucket, if_pos hs]
        rw [List.countP_cons, ih bucket seen hnd.2 hsub]
        simp [hs]
      · have hknot : e.1 ∉ bucket.map (·.1) := fun hk => hs (hsub e.1 hk)
        simp only [merge_into_bucket, if_neg hs]
        rw [dictInsert_of_not_mem e.2 hknot]
        have hsub' : ∀ k ∈ (bucket ++ [(e.1, e.2)]).map (·.1), k ∈ seen ++ [e.1] := by
          intro k hk
          rw [List.map_append] at hk
          rcases List.mem_append.mp hk with h' | h'
          · exact List.mem_append_left _ (hsub k h')
          · simp only [List.map_cons, List.map_nil, List.mem_singleton] at h'
            rw [h']
            exact List.mem_append_right _ (by simp)
        rw [ih (bucket ++ [(e.1, e.2)]) (seen ++ [e.1]) hnd.2 hsub']
        have hcong : rest.countP (fun x => !(decide (x.1 ∈ seen ++ [e.1]))) =
            rest.countP (fun x => !(decide (x.1 ∈ seen))) := by
          apply countP_congr_mem
          intro a ha
          have hne : a.1 ≠ e.1 := by
            intro hEq
            exact hnd.1 (hEq ▸ List.mem_map_of_mem (·.1) ha)
          by_cases hmem : a.1 ∈ seen
          · simp [hmem, List.mem_append]
          · simp [hmem, List.mem_append, hne]
        rw [hcong, List.countP_cons]
        simp only [List.length_append, List.length_cons, List.length_nil]
        simp [hs]
        omega

/-- The length of a conditional pass's raw result map (0 when skipped). -/
def optLen (o : Option (List (Str × Profile))) : Nat :=
  match o with
  | some d => d.length
  | none => 0

/-- The grounded adapter's parsed result is a Python dict: its keys are
distinct. -/
def GeminiKeysNodup (env : PipelineEnv) : Prop :=
  ∀ roles c, ((env.gemini roles c).map (·.1)).Nodup

/-- Claim C4: the total number of profiles in the two buckets after all
merges is at most the sum of the sizes of the raw result maps of the
executed passes, with equality exactly when no URL returned by any pass
duplicates a URL already in the global seen set at the moment of its merge.
(The grounded adapter's parsed results are Python dicts, so their keys are
distinct: `GeminiKeysNodup`.) -/
theorem C4_dedup_count_bound (env : PipelineEnv) (c : Str)
    (hg : GeminiKeysNodup env) :
    (tbM3 env c).1.length + (tbL6 env c).1.length ≤
      (tbPass1 env c).length + (tbPass2 env c).length + optLen (tbPass3 env c) +
      (tbPass4 env c).length + optLen (tbPass5 env c) + optLen (tbPass6 env c) ∧
    ((tbM3 env c).1.length + (tbL6 env c).1.length =
      (tbPass1 env c).length + (tbPass2 env c).length + optLen (tbPass3 env c) +
      (tbPass4 env c).length + optLen (tbPass5 env c) + optLen (tbPass6 env c) ↔
      ((∀ e ∈ tbPass1 env c, e.1 ∉ ([] : List Str)) ∧
       (∀ e ∈ tbPass2 env c, e.1 ∉ (tbM1 env c).2) ∧
       (∀ d, tbPass3 env c = some d → ∀ e ∈ d, e.1 ∉ (tbM2 env c).2) ∧
       (∀ e ∈ tbPass4 env c, e.1 ∉ (tbM3 env c).2) ∧
       (∀ d, tbPass5 env c = some d → ∀ e ∈ d, e.1 ∉ (tbL4 env c).2) ∧
       (∀ d, tbPass6 env c = some d → ∀ e ∈ d, e.1 ∉ (tbL5 env c).2))) := by
  have hnd1 : ((tbPass1 env c).map (·.1)).Nodup := by
    unfold tbPass1; exact keys_nodup_tavily _ _
  have hnd2 : ((tbPass2 env c).map (·.1)).Nodup := by
    unfold tbPass2; exact keys_nodup_tavily _ _
  have hnd4 : ((tbPass4 env c).map (·.1)).Nodup := by
    unfold tbPass4; exact keys_nodup_tavily _ _
  have hsubM1 : ∀ k ∈ (tbM1 env c).1.map (·.1), k ∈ (tbM1 env c).2 := by
    unfold tbM1
    exact (merge_into_bucket_sub (tbPass1 env c) [] []
      (by intro k hk; simp at hk)).1
  have hsubM2 : ∀ k ∈ (tbM2 env c).1.map (·.1), k ∈ (tbM2 env c).2 := by
    unfold tbM2
    exact (merge_into_bucket_sub (tbPass2 env c) (tbM1 env c).1
      (tbM1 env c).2 hsubM1).1
  have hsubL4 : ∀ k ∈ (tbL4 env c).1.map (·.1), k ∈ (tbL4 env c).2 := by
    unfold tbL4
    exact (merge_into_bucket_sub (tbPass4 env c) [] (tbM3 env c).2
      (by intro k hk; simp at hk)).1
  have hsubL5 : ∀ k ∈ (tbL5 env c).1.map (·.1), k ∈ (tbL5 env c).2 := by
    cases hp5 : tbPass5 env c with
    | some d =>
        unfold tbL5
        rw [hp5]
        exact (merge_into_bucket_sub d (tbL4 env c).1 (tbL4 env c).2 hsubL4).1
    | none =>
        unfold tbL5
        rw [hp5]
        exact hsubL4
  have hc1 : ∃ a, (tbM1 env c).1.length = 0 + a ∧ a ≤ (tbPass1 env c).length ∧
      (a = (tbPass1 env c).length ↔ ∀ e ∈ tbPass1 env c, e.1 ∉ ([] : List Str)) := by
    refine ⟨(tbPass1 env c).countP (fun e => !(decide (e.1 ∈ ([] : List Str)))),
      ?_, List.countP_le_length _, countP_fresh_iff _ _⟩
    unfold tbM1
    have := merge_into_bucket_count (tbPass1 env c) [] [] hnd1
      (by intro k hk; simp at hk)
    simpa using this
  have hc2 : ∃ a, (tbM2 env c).1.length = (tbM1 env c).1.length + a ∧
      a ≤ (tbPass2 env c).length ∧
      (a = (tbPass2 env c).length ↔ ∀ e ∈ tbPass2 env c, e.1 ∉ (tbM1 env c).2) := by
    refine ⟨(tbPass2 env c).countP (fun e => !(decide (e.1 ∈ (tbM1 env c).2))),
      ?_, List.countP_le_length _, countP_fresh_iff _ _⟩
    unfold tbM2
    exact merge_into_bucket_count (tbPass2 env c) (tbM1 env c).1
      (tbM1 env c).2 hnd2 hsubM1
  have hc3 : ∃ a, (tbM3 env c).1.length = (tbM2 env c).1.length + a ∧
      a ≤ optLen (tbPass3 env c) ∧
      (a = optLen (tbPass3 env c) ↔
        ∀ d, tbPass3 env c = some d → ∀ e ∈ d, e.1 ∉ (tbM2 env c).2) := by
    cases hp : tbPass3 env c with
    | none =>
        refine ⟨0, ?_, ?_, ?_⟩
        · unfold tbM3
          rw [hp]
          simp
        · exact Nat.le_refl 0
        · constructor
          · intro _ d hd
            exact Option.noConfusion hd
          · intro _
            rfl
    | some d =>
        have hdg : d = env.gemini pass3Roles c := by
          unfold tbPass3 at hp
          split at hp
          · exact (Option.some.inj hp).symm
          · exact Option.noConfusion hp
        have hndd : (d.map (·.1)).Nodup := by
          rw [hdg]; exact hg pass3Roles c
        refine ⟨d.countP (fun e => !(decide (e.1 ∈ (tbM2 env c).2))), ?_, ?_, ?_⟩
        · unfold tbM3
          rw [hp]
          exact merge_into_bucket_count d (tbM2 env c).1 (tbM2 env c).2 hndd hsubM2
        · exact List.countP_le_length _
        · constructor
          · intro ha d' hd'
            obtain rfl := Option.some.inj hd'
            exact (countP_fresh_iff d ((tbM2 env c).2)).mp ha
          · intro hfresh
            exact (countP_fresh_iff d ((tbM2 env c).2)).mpr (hfresh d rfl)
  have hc4 : ∃ a, (tbL4 env c).1.length = 0 + a ∧ a ≤ (tbPass4 env c).length ∧
      (a = (tbPass4 env c).length ↔ ∀ e ∈ tbPass4 env c, e.1 ∉ (tbM3 env c).2) := by
    refine ⟨(tbPass4 env c).countP (fun e => !(decide (e.1 ∈ (tbM3 env c).2))),
      ?_, List.countP_le_length _, countP_fresh_iff _ _⟩
    unfold tbL4
    have := merge_into_bucket_count (tbPass4 env c) [] (tbM3 env c).2 hnd4
      (by intro k hk; simp at hk)
    simpa using this
  have hc5 : ∃ a, (tbL5 env c).1.length = (tbL4 env c).1.length + a ∧
      a ≤ optLen (tbPass5 env c) ∧
      (a = optLen (tbPass5 env c) ↔
        ∀ d, tbPass5 env c = some d → ∀ e ∈ d, e.1 ∉ (tbL4 env c).2) := by
    cases hp : tbPass5 env c with
    | none =>
        refine ⟨0, ?_, ?_, ?_⟩
        · unfold tbL5
          rw [hp]
          simp
        · exact Nat.le_refl 0
        · constructor
          · intro _ d hd
            exact Option.noConfusion hd
          · intro _
            rfl
    | some d =>
        have hdg : d = env.gemini pass5Roles c := by
          unfold tbPass5 at hp
          split at hp
          · exact (Option.some.inj hp).symm
          · exact Option.noConfusion hp
        have hndd : (d.map (·.1)).Nodup := by
          rw [hdg]; exact hg pass5Roles c
        refine ⟨d.countP (fun e => !(decide (e.1 ∈ (tbL4 env c).2))), ?_, ?_, ?_⟩
        · unfold tbL5
          rw [hp]
          exact merge_into_bucket_count d (tbL4 env c).1 (tbL4 env c).2 hndd hsubL4
        · exact List.countP_le_length _
        · constructor
          · intro ha d' hd'
            obtain rfl := Option.some.inj hd'
            exact (countP_fresh_iff d ((tbL4 env c).2)).mp ha
          · intro hfresh
            exact (countP_fresh_iff d ((tbL4 env c).2)).mpr (hfresh d rfl)
  have hc6 : ∃ a, (tbL6 env c).1.length = (tbL5 env c).1.length + a ∧
      a ≤ optLen (tbPass6 env c) ∧
      (a = optLen (tbPass6 env c) ↔
        ∀ d, tbPass6 env c = some d → ∀ e ∈ d, e.1 ∉ (tbL5 env c).2) := by
    cases hp : tbPass6 env c with
    | none =>
        refine ⟨0, ?_, ?_, ?_⟩
        · unfold tbL6
          rw [hp]
          simp
        · exact Nat.le_refl 0
        · constructor
          · intro _ d hd
            exact Option.noConfusion hd
          · intro _
            rfl
    | some d =>
        have hdg : d = env.gemini pass6Roles c := by
          unfold tbPass6 at hp
          split at hp
          · exact (Option.some.inj hp).symm
          · exact Option.noConfusion hp
        have hndd : (d.map (·.1)).Nodup := by
          rw [hdg]; exact hg pass6Roles c
        refine ⟨d.countP (fun e => !(decide (e.1 ∈ (tbL5 env c).2))), ?_, ?_, ?_⟩
        · unfold tbL6
          rw [hp]
          exact merge_into_bucket_count d (tbL5 env c).1 (tbL5 env c).2 hndd hsubL5
        · exact List.countP_le_length _
        · constructor
          · intro ha d' hd'
            obtain rfl := Option.some.inj hd'
            exact (countP_fresh_iff d ((tbL5 env c).2)).mp ha
          · intro hfresh
            exact (countP_fresh_iff d ((tbL5 env c).2)).mpr (hfresh d rfl)
  obtain ⟨a1, e1, b1, f1⟩ := hc1
  obtain ⟨a2, e2, b2, f2⟩ := hc2
  obtain ⟨a3, e3, b3, f3⟩ := hc3
  obtain ⟨a4, e4, b4, f4⟩ := hc4
  obtain ⟨a5, e5, b5, f5⟩ := hc5
  obtain ⟨a6, e6, b6, f6⟩ := hc6
  constructor
  · omega
  · constructor
    · intro heq
      exact ⟨f1.mp (by omega), f2.mp (by omega), f3.mp (by omega),
        f4.mp (by omega), f5.mp (by omega), f6.mp (by omega)⟩
    · intro hfresh
      have g1 := f1.mpr hfresh.1
      have g2 := f2.mpr hfresh.2.1
      have g3 := f3.mpr hfresh.2.2.1
      have g4 := f4.mpr hfresh.2.2.2.1
      have g5 := f5.mpr hfresh.2.2.2.2.1
      have g6 := f6.mpr hfresh.2.2.2.2.2
      omega

theorem C4_dedup_count_bound_witness :
    (tbM3 envFallbackW cW).1.length + (tbL6 envFallbackW cW).1.length ≤
      (tbPass1 envFallbackW cW).length + (tbPass2 envFallbackW cW).length +
      optLen (tbPass3 envFallbackW cW) + (tbPass4 envFallbackW cW).length +
      optLen (tbPass5 envFallbackW cW) + optLen (tbPass6 envFallbackW cW) ∧
    ((tbM3 envFallbackW cW).1.length + (tbL6 envFallbackW cW).1.length =
      (tbPass1 envFallbackW cW).length + (tbPass2 envFallbackW cW).length +
      optLen (tbPass3 envFallbackW cW) + (tbPass4 envFallbackW cW).length +
      optLen (tbPass5 envFallbackW cW) + optLen (tbPass6 envFallbackW cW) ↔
      ((∀ e ∈ tbPass1 envFallbackW cW, e.1 ∉ ([] : List Str)) ∧
       (∀ e ∈ tbPass2 envFallbackW cW, e.1 ∉ (tbM1 envFallbackW cW).2) ∧
       (∀ d, tbPass3 envFallbackW cW = some d →
         ∀ e ∈ d, e.1 ∉ (tbM2 envFallbackW cW).2) ∧
       (∀ e ∈ tbPass4 envFallbackW cW, e.1 ∉ (tbM3 envFallbackW cW).2) ∧
       (∀ d, tbPass5 envFallbackW cW = some d →
         ∀ e ∈ d, e.1 ∉ (tbL4 envFallbackW cW).2) ∧
       (∀ d, tbPass6 envFallbackW cW = some d →
         ∀ e ∈ d, e.1 ∉ (tbL5 envFallbackW cW).2))) :=
  C4_dedup_count_bound envFallbackW cW (fun _ _ => List.nodup_nil)

theorem C1_bucket_exclusivity_after_merges_witness :
    rA.url ∉ (tbL6 envThreeW cW).1.map (fun x => x.1) :=
  C1_bucket_exclusivity_after_merges envThreeW cW rA.url (by decide)
